import Mathlib

/-!
# gumdrop: catalog collectors and configuration wizard

A shallow embedding of `cmd/client.go` (the paginated catalog collectors) and of
`cmd/config.go` (the `config create` wizard), followed by theorems about them.

Conventions of the embedding

* Go `string` is `String`; Go `int` is `Int`, wrapped to 64 bits where the code does arithmetic.
* Go `float64` prices are `Rat`: the provider sends them as JSON numbers, so they are finite,
  and on finite values the comparison `<` of `float64` is the comparison of the rationals
  they denote.
* A Go `map[string]V` is an association list with pairwise distinct keys (`GoMap`).  The order
  of its entries stands for the order in which `range` happens to visit them; every theorem
  quantifies over all such lists, hence over all iteration orders.
* The remote provider and the operator are explicit: a lister is a state-passing function, the
  operator's answers and the results of remote calls made by the wizard are a script of events.
* Ways in which a Go function can end are the constructors of `Exec`.
-/

namespace Gumdrop

/-! ## Outcomes -/

/-- How the execution of a piece of Go code ends. -/
inductive Exec (β : Type) where
  /-- normal return of a value -/
  | ret (r : β)
  /-- the call `log.Fatal(msg)`: the message is printed and the process exits with a non-zero status -/
  | fatal (msg : String)
  /-- the operator interrupted a prompt: "interrupted" is printed and the process exits with 0 -/
  | interrupted
  /-- a run-time panic (nil dereference, index out of range, a prompt error) -/
  | panic
  /-- the execution has not ended within the budget of loop iterations it was given -/
  | pending
  deriving DecidableEq, Repr

/-! ## Strings -/

/-- Comparison `a < b` of Go strings, on their characters: the first differing position decides,
and a proper prefix is smaller.  Go compares the UTF-8 bytes, which orders well-formed strings
as their code points do. -/
def lessChars : List Char → List Char → Bool
  | _, [] => false
  | [], _ :: _ => true
  | a :: as, b :: bs =>
    if a.toNat < b.toNat then true
    else if b.toNat < a.toNat then false
    else lessChars as bs

/-- Go's `a < b` on strings. -/
def stringLess (a b : String) : Bool := lessChars a.data b.data

/-- The relation `sort.Strings` sorts by: `a` may stand before `b` when `b < a` is false. -/
def stringLE (a b : String) : Prop := stringLess b a = false

instance : DecidableRel stringLE := fun a b =>
  inferInstanceAs (Decidable (stringLess b a = false))

/-- The call `sort.Strings(keys)`: the keys in ascending order. -/
def sortStrings (keys : List String) : List String :=
  keys.insertionSort stringLE

/-- The call `strings.Contains(s, sub)` for a substring `sub` of one character. -/
def stringsContains (s : String) (c : Char) : Bool := s.data.contains c

/-- The call `strings.HasSuffix(s, suffix)`. -/
def stringsHasSuffix (s suffix : String) : Bool := suffix.data.isSuffixOf s.data

/-- The fields of `strings.Split(s, sep)` for a separator of one character, on characters:
a separator closes the current field, and the last field runs to the end. -/
def splitChars (sep : Char) : List Char → List (List Char)
  | [] => [[]]
  | c :: cs =>
    if c = sep then [] :: splitChars sep cs
    else
      match splitChars sep cs with
      | [] => [[c]]
      | w :: ws => (c :: w) :: ws

/-- The call `strings.Split(s, sep)` for a separator of one character. -/
def stringsSplit (s : String) (sep : Char) : List String :=
  (splitChars sep s.data).map String.mk

/-! ## Maps -/

/-- A Go `map[string]V`. -/
abbrev GoMap (V : Type) := List (String × V)

namespace GoMap

variable {V : Type}

/-- The assignment `m[k] = v`: an existing entry for `k` is replaced. -/
def set (m : GoMap V) (k : String) (v : V) : GoMap V :=
  (k, v) :: m.filter (fun e => e.1 != k)

/-- The lookup `v, ok := m[k]`. -/
def get? (m : GoMap V) (k : String) : Option V := List.lookup k m

/-- The expression `m[k]`: the zero value when `k` is absent. -/
def get [Inhabited V] (m : GoMap V) (k : String) : V := (m.get? k).getD default

/-- The keys, in the order `for k := range m` visits them. -/
def keys (m : GoMap V) : List String := m.map Prod.fst

/-- The values, in the order `for _, v := range m` visits them. -/
def values (m : GoMap V) : List V := m.map Prod.snd

/-- The builtin `len(m)`. -/
def len (m : GoMap V) : Nat := m.length

end GoMap

/-! ## Provider data (the fields of the `godo` types that the code reads) -/

/-- A `godo.Region`. -/
structure Region where
  Slug : String
  Name : String
  deriving DecidableEq, Repr, Inhabited

/-- A `godo.Image`. -/
structure Image where
  ID : Int
  Name : String
  Distribution : String
  Slug : String
  deriving DecidableEq, Repr, Inhabited

/-- A `godo.Size`.  `PriceMonthly` is a finite `float64`, kept as the rational it denotes. -/
structure Size where
  Slug : String
  PriceMonthly : Rat
  Regions : List String
  Available : Bool
  deriving DecidableEq, Repr, Inhabited

/-- A `godo.Droplet`, as far as a floating IP refers to it. -/
structure Droplet where
  ID : Int
  deriving DecidableEq, Repr, Inhabited

/-- A `godo.FloatingIP`.  `Region` and `Droplet` are pointers: `none` is `nil`. -/
structure FloatingIP where
  IP : String
  Region : Option Region
  Droplet : Option Droplet
  deriving DecidableEq, Repr, Inhabited

/-- A `godo.Volume`.  `Region` is a pointer; `DropletIDs` lists the droplets the volume is
attached to. -/
structure Volume where
  ID : String
  Name : String
  Region : Option Region
  DropletIDs : List Int
  deriving DecidableEq, Repr, Inhabited

/-! ## Paged listing -/

/-- The `godo.ListOptions` sent with a list request. -/
structure ListOptions where
  Page : Int
  PerPage : Int
  deriving DecidableEq, Repr, Inhabited

/-- The `godo.Links` of a response, seen through the two methods the code calls:
`IsLastPage()` and `CurrentPage()`. -/
structure Links where
  IsLastPage : Bool
  CurrentPage : Except String Int

/-- The `godo.Response` of a successful list request. -/
structure Response where
  Links : Option Links

/-- A paged list call of the provider client, such as `client.Images.List(ctx, opt)`: from the
options and the state of the remote side to the page (or the error) and the next state. -/
abbrev Lister (σ α : Type) := ListOptions → σ → Except String (List α × Response) × σ

/-- The value of an `int` expression, wrapped to 64 bits. -/
def wrapInt (x : Int) : Int := (x + 2 ^ 63) % 2 ^ 64 - 2 ^ 63

/-- The triple `(keys, map, err)` that a catalog function returns; `none` is `nil`. -/
structure Catalog (α : Type) where
  keys : Option (List String)
  map : Option (GoMap α)
  err : Option String
  deriving DecidableEq, Repr

/-- What the body of the fold loop does with one descriptor. -/
inductive Verdict where
  /-- the descriptor is stored under this label -/
  | put (label : String)
  /-- the descriptor fails the relevance test and is left out -/
  | skip
  /-- the descriptor has a nil pointer where the body dereferences it -/
  | nilDeref
  deriving DecidableEq, Repr

/-- The loop `for _, i := range items { ... m[label] = i ... }` over one page. -/
def foldItems {α : Type} (verdict : α → Verdict) : GoMap α → List α → Option (GoMap α)
  | m, [] => some m
  | m, i :: rest =>
    match verdict i with
    | .put label => foldItems verdict (m.set label i) rest
    | .skip => foldItems verdict m rest
    | .nilDeref => none

/-- The tail of every catalog function: collect the keys of the map, sort them, and return
them with the map and a nil error. -/
def finish {α : Type} (m : GoMap α) : Catalog α :=
  ⟨some (sortStrings m.keys), some m, none⟩

/-- The return `nil, nil, err`. -/
def failed {α : Type} (err : String) : Catalog α := ⟨none, none, some err⟩

/-- The page loop shared, up to the label and the relevance test, by `GetImages`, `GetSizes`,
`GetUnassignedFloatingIPs` and `GetUnattachedVolumes`.  One unit of `fuel` is one iteration;
`opt` is the options value the loop updates, `m` the map built so far. -/
def pageLoop {σ α : Type} (list : Lister σ α) (verdict : α → Verdict) :
    Nat → ListOptions → GoMap α → σ → Exec (Catalog α) × σ
  | 0, _, _, s => (.pending, s)
  | fuel + 1, opt, m, s =>
    match list opt s with
    | (.error err, s1) => (.ret (failed err), s1)
    | (.ok (items, resp), s1) =>
      match foldItems verdict m items with
      | none => (.panic, s1)
      | some m1 =>
        match resp.Links with
        | none => (.ret (finish m1), s1)
        | some links =>
          if links.IsLastPage then (.ret (finish m1), s1)
          else
            match links.CurrentPage with
            | .error err => (.ret (failed err), s1)
            | .ok page => pageLoop list verdict fuel { opt with Page := wrapInt (page + 1) } m1 s1

/-- The function `GetRegions`: one request of up to 100 regions, no page loop. -/
def GetRegions {σ : Type} (list : Lister σ Region) (s : σ) : Catalog Region × σ :=
  match list { Page := 0, PerPage := 100 } s with
  | (.error err, s1) => (failed err, s1)
  | (.ok (regions, _), s1) =>
    (finish (regions.foldl (fun m r => m.set (r.Name ++ " - " ++ r.Slug) r) []), s1)

/-- The label `i.Distribution + " - " + i.Name` of an image. -/
def imageLabel (i : Image) : String := i.Distribution ++ " - " ++ i.Name

/-- The body of the fold loop of `GetImages`. -/
def imageVerdict (i : Image) : Verdict := .put (imageLabel i)

/-- The function `GetImages`. -/
def GetImages {σ : Type} (list : Lister σ Image) (fuel : Nat) (s : σ) :
    Exec (Catalog Image) × σ :=
  pageLoop list imageVerdict fuel { Page := 0, PerPage := 0 } [] s

/-- The label `fmt.Sprintf("%s - $%0.2f/month", s.Slug, s.PriceMonthly)`; `fmt2` is the
rendering of a price by the verb `%0.2f`. -/
def sizeLabel (fmt2 : Rat → String) (s : Size) : String :=
  s.Slug ++ " - $" ++ fmt2 s.PriceMonthly ++ "/month"

/-- The body of the fold loop of `GetSizes`. -/
def sizeVerdict (fmt2 : Rat → String) (s : Size) : Verdict := .put (sizeLabel fmt2 s)

/-- The function `GetSizes`. -/
def GetSizes {σ : Type} (fmt2 : Rat → String) (list : Lister σ Size) (fuel : Nat) (s : σ) :
    Exec (Catalog Size) × σ :=
  pageLoop list (sizeVerdict fmt2) fuel { Page := 0, PerPage := 0 } [] s

/-- The body of the fold loop of `GetUnassignedFloatingIPs`:
`if i.Region.Slug == region && i.Droplet == nil { m[i.IP + " - " + i.Region.Slug] = i }`. -/
def floatingIPVerdict (region : String) (i : FloatingIP) : Verdict :=
  match i.Region with
  | none => .nilDeref
  | some r =>
    if r.Slug == region && i.Droplet.isNone then .put (i.IP ++ " - " ++ r.Slug) else .skip

/-- The function `GetUnassignedFloatingIPs`. -/
def GetUnassignedFloatingIPs {σ : Type} (list : Lister σ FloatingIP) (region : String)
    (fuel : Nat) (s : σ) : Exec (Catalog FloatingIP) × σ :=
  pageLoop list (floatingIPVerdict region) fuel { Page := 0, PerPage := 0 } [] s

/-- The body of the fold loop of `GetUnattachedVolumes`:
`if v.Region.Slug == region { m[v.Name + " - " + v.Region.Slug] = v }`. -/
def volumeVerdict (region : String) (v : Volume) : Verdict :=
  match v.Region with
  | none => .nilDeref
  | some r => if r.Slug == region then .put (v.Name ++ " - " ++ r.Slug) else .skip

/-- The function `GetUnattachedVolumes`. -/
def GetUnattachedVolumes {σ : Type} (list : Lister σ Volume) (region : String)
    (fuel : Nat) (s : σ) : Exec (Catalog Volume) × σ :=
  pageLoop list (volumeVerdict region) fuel { Page := 0, PerPage := 0 } [] s

/-- The keys and the map of a returned catalog agree: both are present, the keys are in
ascending lexicographic order without a repetition, and a string is among the keys exactly
when the map has an entry for it. -/
def Catalog.Consistent {α : Type} (c : Catalog α) : Prop :=
  ∃ keys m, c.keys = some keys ∧ c.map = some m ∧
    List.Sorted (fun a b : String => a ≤ b) keys ∧ keys.Nodup ∧
    ∀ k : String, k ∈ keys ↔ (m.get? k).isSome = true

/-! ## Runs of a lister, as the page loop drives it -/

/-- The test `resp.Links == nil || resp.Links.IsLastPage()`. -/
def Response.last (resp : Response) : Bool :=
  match resp.Links with
  | none => true
  | some links => links.IsLastPage

/-- The run `Delivers list opt s pages s1`: asked with the options `opt` in the remote state
`s`, and then for the page after the current one of each response, the lister answers with the
pages `pages` in this order; the last response, and none before it, signals the last page.
`s1` is the remote state after the last request. -/
inductive Delivers {σ α : Type} (list : Lister σ α) :
    ListOptions → σ → List (List α) → σ → Prop where
  | last {opt : ListOptions} {s s1 : σ} {items : List α} {resp : Response} :
      list opt s = (.ok (items, resp), s1) → resp.last = true →
      Delivers list opt s [items] s1
  | more {opt : ListOptions} {s s1 s2 : σ} {items : List α} {resp : Response} {links : Links}
      {page : Int} {pages : List (List α)} :
      list opt s = (.ok (items, resp), s1) → resp.Links = some links →
      links.IsLastPage = false → links.CurrentPage = .ok page →
      Delivers list { opt with Page := wrapInt (page + 1) } s1 pages s2 →
      Delivers list opt s (items :: pages) s2

/-- The run `FailsAt list verdict opt s n err s1`: the `n`-th request of the walk that starts
with the options `opt` in the remote state `s` is the first that fails, with the error `err`:
either the request itself returns `err`, or its response does not signal the last page and
reading its current page number returns `err`.  The requests before it succeed, none of their
pages makes the fold dereference a nil pointer, and none signals the last page.  `s1` is the
remote state right after the failing request. -/
inductive FailsAt {σ α : Type} (list : Lister σ α) (verdict : α → Verdict) :
    ListOptions → σ → Nat → String → σ → Prop where
  | fetch {opt : ListOptions} {s s1 : σ} {err : String} :
      list opt s = (.error err, s1) → FailsAt list verdict opt s 1 err s1
  | page {opt : ListOptions} {s s1 : σ} {items : List α} {resp : Response} {links : Links}
      {err : String} :
      list opt s = (.ok (items, resp), s1) → (∀ i ∈ items, verdict i ≠ .nilDeref) →
      resp.Links = some links → links.IsLastPage = false → links.CurrentPage = .error err →
      FailsAt list verdict opt s 1 err s1
  | later {opt : ListOptions} {s s1 s2 : σ} {items : List α} {resp : Response} {links : Links}
      {page : Int} {n : Nat} {err : String} :
      list opt s = (.ok (items, resp), s1) → (∀ i ∈ items, verdict i ≠ .nilDeref) →
      resp.Links = some links → links.IsLastPage = false → links.CurrentPage = .ok page →
      FailsAt list verdict { opt with Page := wrapInt (page + 1) } s1 n err s2 →
      FailsAt list verdict opt s (n + 1) err s2

/-! ## The wizard: data -/

/-- The struct `DropletConfig`. -/
structure DropletConfig where
  Name : String
  Size : String
  Image : String
  Region : String
  FloatingIP : String
  Volumes : List String
  deriving DecidableEq, Repr, Inhabited

/-- The struct `Configuration`. -/
structure Configuration where
  ApiKey : String
  Droplets : GoMap DropletConfig
  deriving DecidableEq, Repr, Inhabited

/-- The local struct `answers` of the wizard. -/
structure Answers where
  Name : String
  Image : String
  Region : String
  Size : String
  FloatingIP : String
  Volumes : List String
  deriving DecidableEq, Repr, Inhabited

/-- The keys of a returned catalog as the caller ranges over them: a nil slice is empty. -/
def Catalog.keyList {α : Type} (c : Catalog α) : List String := c.keys.getD []

/-- The map of a returned catalog as the caller reads it: a nil map has no entry. -/
def Catalog.entries {α : Type} (c : Catalog α) : GoMap α := c.map.getD []

/-! ## The wizard: the Size step -/

/-- The filter loop over `sizesMap`: a size whose slug contains a dash and which is available
is appended once for every region of its list that is a suffix of `answers.Region`. -/
def dropletSizesOf (answersRegion : String) (sizesMap : GoMap Size) : List Size :=
  sizesMap.values.foldl
    (fun acc s =>
      if stringsContains s.Slug '-' then
        if s.Available then
          s.Regions.foldl
            (fun acc region => if stringsHasSuffix answersRegion region then acc ++ [s] else acc)
            acc
        else acc
      else acc)
    []

/-- The three tests of the filter loop on one size, as one condition. -/
def sizeEligible (answersRegion : String) (s : Size) : Bool :=
  stringsContains s.Slug '-' && s.Available &&
    s.Regions.any (fun region => stringsHasSuffix answersRegion region)

/-- The call `sort.Slice(dropletSizes, less)` with `less` comparing `PriceMonthly` by `<`.
Go promises a permutation in which no element is followed by a cheaper one, and nothing
about the order of sizes of equal price; the theorems use this contract only. -/
def sortSlice (dropletSizes : List Size) : List Size :=
  dropletSizes.insertionSort (fun a b => a.PriceMonthly ≤ b.PriceMonthly)

/-- The Size step up to its prompt: the filter, the fatal exit on an empty list, the sort, the
labels, and the pair of the default `dropletSizeNames[0]` and the options. -/
def sizeOptions (fmt2 : Rat → String) (answersRegion : String) (sizesMap : GoMap Size) :
    Exec (String × List String) :=
  let dropletSizes := dropletSizesOf answersRegion sizesMap
  if dropletSizes.length == 0 then .fatal "Droplet sizes list is empty"
  else
    let dropletSizeNames := (sortSlice dropletSizes).map (sizeLabel fmt2)
    match dropletSizeNames with
    | [] => .panic
    | first :: _ => .ret (first, dropletSizeNames)

/-! ## The wizard: the Assemble step -/

/-- The option text `createIPmsg`. -/
def createIPmsg (region : String) : String :=
  "Create a new Floating IP in the " ++ region ++ " region"

/-- The option text `createVolumeMsg`. -/
def createVolumeMsg (region : String) : String :=
  "Create a new volume in the " ++ region ++ " region"

/-- The expression `strings.Split(answers.FloatingIP, " ")[0]`. -/
def floatingIPField (answersFloatingIP : String) : Exec String :=
  match stringsSplit answersFloatingIP ' ' with
  | [] => .panic
  | first :: _ => .ret first

/-- The inputs of one run of `config create`: the loaded configuration, the three catalogs
fetched before the first question, and the rendering of prices. -/
structure Wizard where
  config : Configuration
  regions : Catalog Region
  images : Catalog Image
  sizes : Catalog Size
  fmt2 : Rat → String

/-- The Assemble step: build `cfg`, store it under `cfg.Name`; the result is the
configuration handed to `saveConfig`. -/
def assemble (w : Wizard) (answers : Answers) : Exec Configuration :=
  match floatingIPField answers.FloatingIP with
  | .ret floatingIP =>
    let cfg : DropletConfig :=
      { Name := answers.Name
        Size := (w.sizes.entries.get answers.Size).Slug
        Region := (w.regions.entries.get answers.Region).Slug
        Image := (w.images.entries.get answers.Image).Slug
        FloatingIP := floatingIP
        Volumes := answers.Volumes }
    .ret { w.config with Droplets := w.config.Droplets.set cfg.Name cfg }
  | _ => .panic

/-! ## The wizard: the flow of questions -/

/-- What the run receives from outside while it is suspended: an answer of the operator to a
prompt, or the result of a remote call. -/
inductive Event where
  /-- the text typed at an Input prompt, or the option chosen at a Select prompt -/
  | text (s : String)
  /-- the answer to a Confirm prompt -/
  | confirm (b : Bool)
  /-- the number typed at the Input prompt that is read into an `int64` -/
  | number (n : Int)
  /-- the operator interrupts the prompt -/
  | interrupt
  /-- the prompt library returns an error other than the interrupt -/
  | promptError
  /-- the result of `client.FloatingIPs.Create` inside `CreateFloatingIP` -/
  | createdFloatingIP (r : Except String String)
  /-- the result of `client.Storage.CreateVolume` inside `CreateVolume` -/
  | createdVolume (r : Except String String)
  /-- the triple returned by `GetFloatingIPs(client, region)` -/
  | floatingIPs (c : Catalog FloatingIP)
  /-- the triple returned by `GetUnattachedVolumes(client, region)` -/
  | volumes (c : Catalog Volume)

/-- The points at which the run is suspended, in the order of the source. -/
inductive Prompt where
  /-- Input "Choose a unique name for this droplet"; the questions after it are built already,
  with `regions[0]` as the default region -/
  | name (regionDefault : String)
  /-- Select "Choose the application image" -/
  | image (regionDefault : String)
  /-- Select "Choose the region for the droplet" -/
  | region (regionDefault : String)
  /-- Select "Choose the droplet size" -/
  | size (default : String) (options : List String)
  /-- Confirm "Do you want to assign a floating IP address?", default yes -/
  | assignFloatingIP
  /-- Select "Do you want to create a new Floating IP or use an existing one?" -/
  | createOrExistingIP (region : String)
  /-- the call `CreateFloatingIP(client, region)` -/
  | createFloatingIP (region : String)
  /-- the call `GetFloatingIPs(client, region)` -/
  | getFloatingIPs (region : String)
  /-- Select "Choose an existing Floating IP address" -/
  | chooseFloatingIP (options : List String)
  /-- Confirm "Do you want to assign more external volumes?", default no -/
  | moreVolumes
  /-- Select "Do you want to create a new volume or use an existing one?" -/
  | createOrExistingVolume (region : String)
  /-- Input "Enter the name for the new volume" -/
  | volumeName (region : String)
  /-- Input "Enter the size for the new volume (in GiB)" -/
  | volumeSize (region : String) (name : String)
  /-- the call `CreateVolume(client, region, name, size)` -/
  | createVolume (region : String) (name : String) (size : Int)
  /-- the call `GetUnattachedVolumes(client, region)` -/
  | getVolumes (region : String)
  /-- Select "Choose an existing/unattached volume" -/
  | chooseVolume (options : List String) (volumesMap : GoMap Volume)
  deriving DecidableEq, Repr

/-- The state of a run. -/
inductive State where
  /-- suspended at a prompt or a remote call, with the answers so far -/
  | waiting (at_ : Prompt) (answers : Answers)
  /-- over: `ret config` is the configuration handed to `saveConfig` -/
  | ended (r : Exec Configuration)
  /-- the event cannot arrive at this point (an answer of another kind than the prompt
  asks for): the script describes no run -/
  | invalid
  deriving DecidableEq, Repr

/-- The wrapper `ask`/`askOne` around a prompt with a text answer. -/
def onText (e : Event) (next : String → State) : State :=
  match e with
  | .text s => next s
  | .interrupt => .ended .interrupted
  | .promptError => .ended .panic
  | _ => .invalid

/-- The wrapper `askOne` around a Confirm prompt. -/
def onConfirm (e : Event) (next : Bool → State) : State :=
  match e with
  | .confirm b => next b
  | .interrupt => .ended .interrupted
  | .promptError => .ended .panic
  | _ => .invalid

/-- The wrapper `askOne` around the Input prompt that is read into an `int64`. -/
def onNumber (e : Event) (next : Int → State) : State :=
  match e with
  | .number n => next n
  | .interrupt => .ended .interrupted
  | .promptError => .ended .panic
  | _ => .invalid

/-- One step of `configCreateCmd.Run`: from the point where the run is suspended and the
event that arrives, through the code up to the next suspension or the end. -/
def step (w : Wizard) (at_ : Prompt) (answers : Answers) (e : Event) : State :=
  match at_ with
  | .name regionDefault =>
    onText e fun s => .waiting (.image regionDefault) { answers with Name := s }
  | .image regionDefault =>
    onText e fun s => .waiting (.region regionDefault) { answers with Image := s }
  | .region _ =>
    onText e fun s =>
      match sizeOptions w.fmt2 s w.sizes.entries with
      | .ret (default, options) => .waiting (.size default options) { answers with Region := s }
      | .fatal msg => .ended (.fatal msg)
      | _ => .ended .panic
  | .size _ _ =>
    onText e fun s => .waiting .assignFloatingIP { answers with Size := s }
  | .assignFloatingIP =>
    onConfirm e fun useFloatingIP =>
      if !useFloatingIP then .waiting .moreVolumes answers
      else .waiting (.createOrExistingIP (w.regions.entries.get answers.Region).Slug) answers
  | .createOrExistingIP region =>
    onText e fun createIPAnswer =>
      if createIPAnswer == createIPmsg region then .waiting (.createFloatingIP region) answers
      else .waiting (.getFloatingIPs region) answers
  | .createFloatingIP _ =>
    match e with
    | .createdFloatingIP (.ok ip) => .waiting .moreVolumes { answers with FloatingIP := ip }
    | .createdFloatingIP (.error err) => .ended (.fatal err)
    | _ => .invalid
  | .getFloatingIPs _ =>
    match e with
    | .floatingIPs c =>
      match c.err with
      | some err => .ended (.fatal err)
      | none =>
        if c.keyList.length == 0 then .waiting .assignFloatingIP answers
        else .waiting (.chooseFloatingIP c.keyList) answers
    | _ => .invalid
  | .chooseFloatingIP _ =>
    onText e fun s => .waiting .moreVolumes { answers with FloatingIP := s }
  | .moreVolumes =>
    onConfirm e fun addVolumes =>
      if !addVolumes then .ended (assemble w answers)
      else .waiting (.createOrExistingVolume (w.regions.entries.get answers.Region).Slug) answers
  | .createOrExistingVolume region =>
    onText e fun createVolumeAnswer =>
      if createVolumeAnswer == createVolumeMsg region then .waiting (.volumeName region) answers
      else .waiting (.getVolumes region) answers
  | .volumeName region =>
    onText e fun name => .waiting (.volumeSize region name) answers
  | .volumeSize region name =>
    onNumber e fun size => .waiting (.createVolume region name size) answers
  | .createVolume _ _ _ =>
    match e with
    | .createdVolume (.ok id) =>
      .waiting .moreVolumes { answers with Volumes := answers.Volumes ++ [id] }
    | .createdVolume (.error err) => .ended (.fatal err)
    | _ => .invalid
  | .getVolumes _ =>
    match e with
    | .volumes c =>
      match c.err with
      | some err => .ended (.fatal err)
      | none =>
        if c.keyList.length == 0 then .waiting .moreVolumes answers
        else .waiting (.chooseVolume c.keyList c.entries) answers
    | _ => .invalid
  | .chooseVolume _ volumesMap =>
    onText e fun volume =>
      .waiting .moreVolumes { answers with Volumes := answers.Volumes ++ [(volumesMap.get volume).ID] }

/-- The run from a state through a script of events; events after the end are not read. -/
def run (w : Wizard) : State → List Event → State
  | .waiting at_ answers, e :: rest => run w (step w at_ answers e) rest
  | st, _ => st

/-- The start of `configCreateCmd.Run`, up to the first question: a failed catalog fetch is
fatal, and building the region question reads `regions[0]`. -/
def start (w : Wizard) : State :=
  match w.regions.err with
  | some err => .ended (.fatal err)
  | none =>
    match w.images.err with
    | some err => .ended (.fatal err)
    | none =>
      match w.sizes.err with
      | some err => .ended (.fatal err)
      | none =>
        match w.regions.keyList with
        | [] => .ended .panic
        | regionDefault :: _ => .waiting (.name regionDefault) default

/-- The function `configCreateCmd.Run` on a script of events. -/
def configCreateRun (w : Wizard) (script : List Event) : State :=
  run w (start w) script

/-- The three parts of the flow of questions. -/
inductive Phase where
  /-- the questions for name, image, region and size -/
  | questions
  /-- the floating-IP sub-flow -/
  | floatingIP
  /-- the volume sub-flow, up to the Assemble step -/
  | volumes
  deriving DecidableEq, Repr

/-- The part of the flow a suspension point belongs to. -/
def Prompt.phase : Prompt → Phase
  | .name _ => .questions
  | .image _ => .questions
  | .region _ => .questions
  | .size _ _ => .questions
  | .assignFloatingIP => .floatingIP
  | .createOrExistingIP _ => .floatingIP
  | .createFloatingIP _ => .floatingIP
  | .getFloatingIPs _ => .floatingIP
  | .chooseFloatingIP _ => .floatingIP
  | .moreVolumes => .volumes
  | .createOrExistingVolume _ => .volumes
  | .volumeName _ => .volumes
  | .volumeSize _ _ => .volumes
  | .createVolume _ _ _ => .volumes
  | .getVolumes _ => .volumes
  | .chooseVolume _ _ => .volumes

/-! ## Example inputs -/

/-- An image listing of two pages; the remote state counts the requests.  The image of the
second page has the label of the first image of the first page. -/
def demoImages : Lister Nat Image := fun opt n =>
  if opt.Page = 0 then
    (.ok ([⟨1, "20.04", "Ubuntu", "ubuntu-20-04"⟩, ⟨2, "11", "Debian", "debian-11"⟩],
      ⟨some ⟨false, .ok 1⟩⟩), n + 1)
  else if opt.Page = 2 then
    (.ok ([⟨3, "20.04", "Ubuntu", "ubuntu-20-04-b"⟩], ⟨some ⟨true, .ok 2⟩⟩), n + 1)
  else (.error "page not found", n + 1)

/-- The two pages of `demoImages`. -/
def demoImagePages : List (List Image) :=
  [[⟨1, "20.04", "Ubuntu", "ubuntu-20-04"⟩, ⟨2, "11", "Debian", "debian-11"⟩],
   [⟨3, "20.04", "Ubuntu", "ubuntu-20-04-b"⟩]]

/-- A region listing of one page. -/
def demoRegions : Lister Nat Region := fun _ n =>
  (.ok ([⟨"sfo1", "San Francisco 1"⟩, ⟨"nyc1", "New York 1"⟩], ⟨none⟩), n + 1)

/-- An image listing whose first page is fine and whose second request fails; the remote
state is the log of the page numbers requested. -/
def demoFailing : Lister (List Int) Image := fun opt log =>
  if opt.Page = 0 then
    (.ok ([⟨1, "20.04", "Ubuntu", "ubuntu-20-04"⟩], ⟨some ⟨false, .ok 1⟩⟩), log ++ [opt.Page])
  else (.error "connection reset", log ++ [opt.Page])

/-- A volume listing of one page: a volume in `nyc1` that is attached to the droplet 42. -/
def demoVolumes : Lister Nat Volume := fun _ n =>
  (.ok ([⟨"vol-1", "data", some ⟨"nyc1", "New York 1"⟩, [42]⟩], ⟨none⟩), n + 1)

/-- A rendering of a price in whole dollars with two decimals, for the examples. -/
def demoFmt2 (q : Rat) : String := toString q.floor ++ ".00"

/-- A size catalog with one size, whose region list holds `c1` and not `nyc1`. -/
def demoOddSizes : GoMap Size :=
  [("s-1vcpu-1gb - $5.00/month", ⟨"s-1vcpu-1gb", 5, ["c1"], true⟩)]

/-- A size catalog of three sizes in `nyc1`: two eligible ones, the dearer one first, and a
legacy size without a dash. -/
def demoSizes : GoMap Size :=
  [("s-2vcpu-2gb - $15.00/month", ⟨"s-2vcpu-2gb", 15, ["nyc1", "sfo1"], true⟩),
   ("512mb - $5.00/month", ⟨"512mb", 5, ["nyc1"], true⟩),
   ("s-1vcpu-1gb - $5.00/month", ⟨"s-1vcpu-1gb", 5, ["nyc1"], true⟩)]

/-- The inputs of a run: the catalogs that `GetRegions` and `GetImages` return for
`demoRegions` and `demoImages`, and the sizes of `demoSizes`. -/
def demoWizard : Wizard where
  config := ⟨"token", [("web-1", ⟨"web-1", "s-1vcpu-1gb", "debian-11", "sfo1", "", []⟩)]⟩
  regions := (GetRegions demoRegions 0).1
  images := finish [("Ubuntu - 20.04", ⟨3, "20.04", "Ubuntu", "ubuntu-20-04-b"⟩),
    ("Debian - 11", ⟨2, "11", "Debian", "debian-11"⟩)]
  sizes := finish demoSizes
  fmt2 := demoFmt2

/-- An unassigned floating IP in `nyc1`. -/
def demoFloatingIP : FloatingIP := ⟨"10.0.0.7", some ⟨"nyc1", "New York 1"⟩, none⟩

/-- The script of a run up to the choice among the existing floating IPs of `nyc1`: name,
image, region, size, yes, use existing, and the catalog that holds `demoFloatingIP`. -/
def demoScript : List Event :=
  [.text "web-2", .text "Ubuntu - 20.04", .text "New York 1 - nyc1",
   .text "s-1vcpu-1gb - $5.00/month", .confirm true,
   .text "Use an existing Floating IP in the nyc1 region",
   .floatingIPs (finish [("10.0.0.7 - nyc1", demoFloatingIP)])]

/-- The script of a whole run: an empty answer to the name question, then image, region and
size, no floating IP, no volume. -/
def demoNamelessScript : List Event :=
  [.text "", .text "Ubuntu - 20.04", .text "New York 1 - nyc1",
   .text "s-1vcpu-1gb - $5.00/month", .confirm false, .confirm false]

/-! # Theorems -/

/-! ## Strings -/

theorem lessChars_iff (as bs : List Char) : lessChars as bs = true ↔ as < bs := by
  induction as generalizing bs with
  | nil =>
    cases bs with
    | nil => simp [lessChars]
    | cons b bs => simpa [lessChars] using List.nil_lt_cons b bs
  | cons a as ih =>
    cases bs with
    | nil => simp [lessChars]
    | cons b bs =>
      have key : ∀ x y : Char, x < y ↔ x.toNat < y.toNat := fun _ _ => Iff.rfl
      simp only [lessChars]
      by_cases h1 : a.toNat < b.toNat
      · simp only [h1, if_true, true_iff]
        exact List.Lex.rel ((key a b).2 h1)
      · by_cases h2 : b.toNat < a.toNat
        · simp only [h1, h2, if_true, if_false]
          constructor
          · intro h; cases h
          · intro h
            have h4 : b :: bs < a :: as := List.Lex.rel ((key b a).2 h2)
            exact absurd h (not_lt_of_lt h4)
        · simp only [h1, h2, if_false]
          have hab : a = b :=
            le_antisymm (not_lt.1 (fun h => h2 ((key b a).1 h)))
              (not_lt.1 (fun h => h1 ((key a b).1 h)))
          subst hab
          rw [ih bs]
          exact (List.Lex.cons_iff).symm

/-- The comparison of the embedding is the lexicographic order of strings. -/
theorem stringLess_iff_lt (a b : String) : stringLess a b = true ↔ a < b := by
  unfold stringLess
  rw [String.lt_iff_toList_lt]
  exact lessChars_iff _ _

theorem stringLE_iff_le (a b : String) : stringLE a b ↔ a ≤ b := by
  unfold stringLE
  rw [← not_lt, ← stringLess_iff_lt]
  simp

theorem stringLE_eq_le : stringLE = (fun a b : String => a ≤ b) := by
  funext a b
  exact propext (stringLE_iff_le a b)

theorem sortStrings_perm (l : List String) : (sortStrings l).Perm l :=
  List.perm_insertionSort _ l

theorem sortStrings_sorted (l : List String) : List.Sorted (fun a b => a ≤ b) (sortStrings l) := by
  have h : ∀ (r : String → String → Prop) [DecidableRel r], r = (fun a b : String => a ≤ b) →
      List.Sorted (fun a b => a ≤ b) (l.insertionSort r) := by
    intro r _ hr
    subst hr
    exact List.sorted_insertionSort _ l
  exact h stringLE stringLE_eq_le

theorem mem_sortStrings (l : List String) (k : String) : k ∈ sortStrings l ↔ k ∈ l :=
  (sortStrings_perm l).mem_iff

theorem sortStrings_nodup (l : List String) (h : l.Nodup) : (sortStrings l).Nodup :=
  (sortStrings_perm l).nodup_iff.2 h

/-- The order in which `range` visits the keys does not show in the sorted keys. -/
theorem sortStrings_eq_of_perm (l1 l2 : List String) (h : l1.Perm l2) :
    sortStrings l1 = sortStrings l2 :=
  List.eq_of_perm_of_sorted
    (((sortStrings_perm l1).trans h).trans (sortStrings_perm l2).symm)
    (sortStrings_sorted l1) (sortStrings_sorted l2)

/-! ## Maps -/

namespace GoMap

variable {V : Type}

theorem keys_set (m : GoMap V) (k : String) (v : V) :
    (m.set k v).keys = k :: m.keys.filter (fun x => x != k) := by
  simp [set, keys, List.filter_map, Function.comp_def]

theorem mem_keys_set (m : GoMap V) (k : String) (v : V) (x : String) :
    x ∈ (m.set k v).keys ↔ x = k ∨ x ∈ m.keys := by
  rw [keys_set]
  by_cases h : x = k
  · simp [h]
  · simp [h]

theorem nodup_keys_set (m : GoMap V) (k : String) (v : V) (h : m.keys.Nodup) :
    (m.set k v).keys.Nodup := by
  rw [keys_set]
  refine List.nodup_cons.2 ⟨?_, h.filter _⟩
  simp

theorem lookup_filter_ne (m : GoMap V) (k x : String) (h : x ≠ k) :
    List.lookup x (m.filter (fun e => e.1 != k)) = List.lookup x m := by
  induction m with
  | nil => rfl
  | cons e m ih =>
    obtain ⟨k1, v1⟩ := e
    by_cases h1 : k1 = k
    · subst h1
      have hx : (x == k1) = false := by simpa using h
      simp [List.filter_cons, List.lookup_cons, hx, ih]
    · have h2 : (k1 != k) = true := by simpa using h1
      simp only [List.filter_cons, h2, if_true, List.lookup_cons, ih]

theorem get?_set (m : GoMap V) (k : String) (v : V) (x : String) :
    (m.set k v).get? x = if x = k then some v else m.get? x := by
  unfold get? set
  by_cases h : x = k
  · subst h
    simp [List.lookup_cons]
  · have hx : (x == k) = false := by simpa using h
    simp only [List.lookup_cons, hx, h, if_false]
    exact lookup_filter_ne m k x h

theorem get?_isSome_iff (m : GoMap V) (x : String) :
    (m.get? x).isSome = true ↔ x ∈ m.keys := by
  unfold get? keys
  induction m with
  | nil => simp
  | cons e m ih =>
    obtain ⟨k1, v1⟩ := e
    by_cases h : x = k1
    · subst h
      simp [List.lookup_cons]
    · have hx : (x == k1) = false := by simpa using h
      simp only [List.lookup_cons, hx, List.map_cons, List.mem_cons, h, false_or]
      exact ih

end GoMap

/-! ## The fold over a page -/

section Fold

variable {α : Type}

theorem foldItems_put (label : α → String) (verdict : α → Verdict)
    (hv : ∀ i, verdict i = .put (label i)) (m : GoMap α) (items : List α) :
    foldItems verdict m items = some (items.foldl (fun m i => m.set (label i) i) m) := by
  induction items generalizing m with
  | nil => rfl
  | cons i rest ih => simp only [foldItems, hv i, List.foldl_cons, ih]

theorem foldItems_nodup (verdict : α → Verdict) (m m1 : GoMap α) (items : List α)
    (hm : m.keys.Nodup) (h : foldItems verdict m items = some m1) : m1.keys.Nodup := by
  induction items generalizing m with
  | nil =>
    simp only [foldItems, Option.some.injEq] at h
    exact h ▸ hm
  | cons i rest ih =>
    unfold foldItems at h
    split at h
    · exact ih _ (GoMap.nodup_keys_set m _ i hm) h
    · exact ih _ hm h
    · simp at h

theorem foldItems_isSome (verdict : α → Verdict) (m : GoMap α) (items : List α)
    (h : ∀ i ∈ items, verdict i ≠ .nilDeref) : ∃ m1, foldItems verdict m items = some m1 := by
  induction items generalizing m with
  | nil => exact ⟨m, rfl⟩
  | cons i rest ih =>
    have hrest : ∀ j ∈ rest, verdict j ≠ .nilDeref := fun j hj => h j (List.mem_cons_of_mem _ hj)
    have hi := h i (List.mem_cons_self _ _)
    unfold foldItems
    split
    · exact ih _ hrest
    · exact ih _ hrest
    · rename_i heq
      exact absurd heq hi

/-- Every entry of the map after the fold was in the map before, or is a descriptor of the page
stored under the label of its verdict. -/
theorem foldItems_mem (verdict : α → Verdict) (m m1 : GoMap α) (items : List α)
    (h : foldItems verdict m items = some m1) (k : String) (v : α) (hkv : (k, v) ∈ m1) :
    (k, v) ∈ m ∨ (v ∈ items ∧ verdict v = .put k) := by
  induction items generalizing m with
  | nil =>
    simp only [foldItems, Option.some.injEq] at h
    exact Or.inl (h ▸ hkv)
  | cons i rest ih =>
    unfold foldItems at h
    split at h
    · rename_i label hl
      rcases ih _ h with h1 | h1
      · simp only [GoMap.set, List.mem_cons, List.mem_filter] at h1
        rcases h1 with h1 | h1
        · right
          simp only [Prod.mk.injEq] at h1
          obtain ⟨rfl, rfl⟩ := h1
          exact ⟨List.mem_cons_self _ _, hl⟩
        · exact Or.inl h1.1
      · exact Or.inr ⟨List.mem_cons_of_mem _ h1.1, h1.2⟩
    · rcases ih _ h with h1 | h1
      · exact Or.inl h1
      · exact Or.inr ⟨List.mem_cons_of_mem _ h1.1, h1.2⟩
    · simp at h

theorem foldl_set_nodup (label : α → String) (items : List α) (m : GoMap α)
    (hm : m.keys.Nodup) : (items.foldl (fun m i => m.set (label i) i) m).keys.Nodup := by
  induction items generalizing m with
  | nil => exact hm
  | cons i rest ih => exact ih _ (GoMap.nodup_keys_set m _ i hm)

theorem foldl_set_mem_keys (label : α → String) (items : List α) (m : GoMap α) (k : String) :
    k ∈ (items.foldl (fun m i => m.set (label i) i) m).keys ↔
      k ∈ m.keys ∨ ∃ d ∈ items, label d = k := by
  induction items generalizing m with
  | nil => simp
  | cons i rest ih =>
    rw [List.foldl_cons, ih, GoMap.mem_keys_set]
    constructor
    · rintro ((h | h) | ⟨d, hd, h⟩)
      · exact Or.inr ⟨i, List.mem_cons_self _ _, h.symm⟩
      · exact Or.inl h
      · exact Or.inr ⟨d, List.mem_cons_of_mem _ hd, h⟩
    · rintro (h | ⟨d, hd, h⟩)
      · exact Or.inl (Or.inr h)
      · rcases List.mem_cons.1 hd with rfl | hd
        · exact Or.inl (Or.inl h.symm)
        · exact Or.inr ⟨d, hd, h⟩

theorem foldl_set_get? (label : α → String) (items : List α) (m : GoMap α) (k : String) :
    (items.foldl (fun m i => m.set (label i) i) m).get? k =
      (items.reverse.find? (fun d => label d == k)).or (m.get? k) := by
  induction items generalizing m with
  | nil => simp
  | cons i rest ih =>
    rw [List.foldl_cons, ih, GoMap.get?_set, List.reverse_cons, List.find?_append]
    cases h : List.find? (fun d => label d == k) rest.reverse with
    | some d => simp
    | none =>
      by_cases hk : k = label i
      · subst hk
        simp
      · have hk1 : ¬ label i = k := fun h => hk h.symm
        simp [hk, hk1]

/-- The number of entries of a map with pairwise distinct keys whose key set is the set of the
labels of `items` is the number of distinct labels. -/
theorem len_eq_distinct (label : α → String) (items : List α) (m : GoMap α)
    (hm : m.keys.Nodup) (hk : ∀ k, k ∈ m.keys ↔ ∃ d ∈ items, label d = k) :
    m.len = (items.map label).dedup.length := by
  have hp : m.keys.Perm (items.map label).dedup := by
    rw [List.perm_ext_iff_of_nodup hm (List.nodup_dedup _)]
    intro k
    rw [hk k, List.mem_dedup, List.mem_map]
  have := hp.length_eq
  simpa [GoMap.keys, GoMap.len] using this

end Fold

/-! ## The end of a catalog function -/

theorem finish_consistent {α : Type} (m : GoMap α) (hm : m.keys.Nodup) :
    (finish m).Consistent := by
  refine ⟨sortStrings m.keys, m, rfl, rfl, sortStrings_sorted _, sortStrings_nodup _ hm, ?_⟩
  intro k
  rw [mem_sortStrings, GoMap.get?_isSome_iff]

/-! ## The page loop -/

section Loop

variable {σ α : Type}

/-- A normal return of the page loop is either `nil, nil, err` or the finished catalog of a
map with pairwise distinct keys. -/
theorem pageLoop_ret (list : Lister σ α) (verdict : α → Verdict) (fuel : Nat)
    (opt : ListOptions) (m : GoMap α) (s s1 : σ) (c : Catalog α) (hm : m.keys.Nodup)
    (h : pageLoop list verdict fuel opt m s = (.ret c, s1)) :
    (∃ err, c = failed err) ∨ ∃ m1 : GoMap α, m1.keys.Nodup ∧ c = finish m1 := by
  induction fuel generalizing opt m s with
  | zero => simp [pageLoop] at h
  | succ fuel ih =>
    unfold pageLoop at h
    split at h
    · simp only [Prod.mk.injEq, Exec.ret.injEq] at h
      exact Or.inl ⟨_, h.1.symm⟩
    · split at h
      · simp at h
      · rename_i m1 hfold
        have hm1 := foldItems_nodup verdict m m1 _ hm hfold
        split at h
        · simp only [Prod.mk.injEq, Exec.ret.injEq] at h
          exact Or.inr ⟨m1, hm1, h.1.symm⟩
        · split at h
          · simp only [Prod.mk.injEq, Exec.ret.injEq] at h
            exact Or.inr ⟨m1, hm1, h.1.symm⟩
          · split at h
            · simp only [Prod.mk.injEq, Exec.ret.injEq] at h
              exact Or.inl ⟨_, h.1.symm⟩
            · exact ih _ _ _ hm1 h

theorem pageLoop_consistent (list : Lister σ α) (verdict : α → Verdict) (fuel : Nat)
    (opt : ListOptions) (s s1 : σ) (c : Catalog α)
    (h : pageLoop list verdict fuel opt [] s = (.ret c, s1)) (hc : c.err = none) :
    c.Consistent := by
  rcases pageLoop_ret list verdict fuel opt [] s s1 c List.nodup_nil h with ⟨err, rfl⟩ | ⟨m1, hm1, rfl⟩
  · simp [failed] at hc
  · exact finish_consistent m1 hm1

/-- Every entry of a returned map is a descriptor that the fold accepted under its key. -/
theorem pageLoop_mem (list : Lister σ α) (verdict : α → Verdict) (fuel : Nat)
    (opt : ListOptions) (m m2 : GoMap α) (s s1 : σ) (c : Catalog α)
    (h : pageLoop list verdict fuel opt m s = (.ret c, s1)) (hc : c.map = some m2)
    (k : String) (v : α) (hkv : (k, v) ∈ m2) : (k, v) ∈ m ∨ verdict v = .put k := by
  induction fuel generalizing opt m s with
  | zero => simp [pageLoop] at h
  | succ fuel ih =>
    unfold pageLoop at h
    split at h
    · simp only [Prod.mk.injEq, Exec.ret.injEq] at h
      rw [← h.1] at hc
      simp [failed] at hc
    · split at h
      · simp at h
      · rename_i m1 hfold
        have hstep : (k, v) ∈ m1 → (k, v) ∈ m ∨ verdict v = .put k := fun h1 =>
          (foldItems_mem verdict m m1 _ hfold k v h1).imp id (fun h2 => h2.2)
        have hdone : c = finish m1 → (k, v) ∈ m ∨ verdict v = .put k := by
          intro hfin
          rw [hfin] at hc
          simp only [finish, Option.some.injEq] at hc
          exact hstep (hc ▸ hkv)
        split at h
        · simp only [Prod.mk.injEq, Exec.ret.injEq] at h
          exact hdone h.1.symm
        · split at h
          · simp only [Prod.mk.injEq, Exec.ret.injEq] at h
            exact hdone h.1.symm
          · split at h
            · simp only [Prod.mk.injEq, Exec.ret.injEq] at h
              rw [← h.1] at hc
              simp [failed] at hc
            · rcases ih _ _ _ h with h1 | h1
              · exact hstep h1
              · exact Or.inr h1

/-- When the lister delivers `pages`, a loop with one unit of fuel per page returns the
finished fold of all their descriptors, in order. -/
theorem pageLoop_delivers (list : Lister σ α) (label : α → String) (verdict : α → Verdict)
    (hv : ∀ i, verdict i = .put (label i)) (opt : ListOptions) (s s1 : σ)
    (pages : List (List α)) (hd : Delivers list opt s pages s1) (fuel : Nat) (m : GoMap α)
    (hf : pages.length ≤ fuel) :
    pageLoop list verdict fuel opt m s =
      (.ret (finish (pages.flatten.foldl (fun m i => m.set (label i) i) m)), s1) := by
  induction hd generalizing fuel m with
  | last hl hlast =>
    obtain ⟨fuel, rfl⟩ : ∃ n, fuel = n + 1 := ⟨fuel - 1, by simp at hf; omega⟩
    rename_i opt s s1 items resp
    unfold pageLoop
    simp only [hl, foldItems_put label verdict hv]
    unfold Response.last at hlast
    split at hlast
    · rename_i h0
      simp [h0]
    · rename_i links h0
      simp [h0, hlast]
  | more hl hlinks hnot hpage _ ih =>
    obtain ⟨fuel, rfl⟩ : ∃ n, fuel = n + 1 := ⟨fuel - 1, by simp at hf; omega⟩
    unfold pageLoop
    simp only [hl, foldItems_put label verdict hv, hlinks, hnot, hpage]
    rw [ih fuel _ (by simpa using hf)]
    simp

/-- When the `n`-th request is the first to fail, a loop with at least `n` units of fuel
returns `nil, nil, err`, and the remote state is the one right after that request. -/
theorem pageLoop_failsAt (list : Lister σ α) (verdict : α → Verdict) (opt : ListOptions)
    (s s1 : σ) (n : Nat) (err : String) (hf : FailsAt list verdict opt s n err s1)
    (fuel : Nat) (m : GoMap α) (hn : n ≤ fuel) :
    pageLoop list verdict fuel opt m s = (.ret ⟨none, none, some err⟩, s1) := by
  induction hf generalizing fuel m with
  | fetch hl =>
    obtain ⟨fuel, rfl⟩ : ∃ k, fuel = k + 1 := ⟨fuel - 1, by omega⟩
    unfold pageLoop
    simp only [hl, failed]
  | page hl hok hlinks hnot hpage =>
    obtain ⟨fuel, rfl⟩ : ∃ k, fuel = k + 1 := ⟨fuel - 1, by omega⟩
    obtain ⟨m1, hm1⟩ := foldItems_isSome verdict m _ hok
    unfold pageLoop
    simp only [hl, hm1, hlinks, hnot, hpage, failed]
    simp
  | later hl hok hlinks hnot hpage _ ih =>
    obtain ⟨fuel, rfl⟩ : ∃ k, fuel = k + 1 := ⟨fuel - 1, by omega⟩
    obtain ⟨m1, hm1⟩ := foldItems_isSome verdict m _ hok
    unfold pageLoop
    simp only [hl, hm1, hlinks, hnot, hpage]
    rw [ih fuel m1 (by omega)]
    simp

end Loop

/-! ## The collectors -/

/-- The statement of the last-wins fold for a page loop that stores every descriptor. -/
theorem pageLoop_last_wins {σ α : Type} (list : Lister σ α) (label : α → String)
    (verdict : α → Verdict) (hv : ∀ i, verdict i = .put (label i)) (opt : ListOptions)
    (s s1 : σ) (pages : List (List α)) (fuel : Nat) (hd : Delivers list opt s pages s1)
    (hf : pages.length ≤ fuel) :
    ∃ m : GoMap α,
      pageLoop list verdict fuel opt [] s =
        (.ret ⟨some (sortStrings m.keys), some m, none⟩, s1) ∧
      (∀ k, k ∈ m.keys ↔ ∃ d ∈ pages.flatten, label d = k) ∧
      m.len = ((pages.flatten.map label).dedup).length ∧
      ∀ k, m.get? k = pages.flatten.reverse.find? (fun d => label d == k) := by
  have hkeys : ∀ k, k ∈ GoMap.keys (pages.flatten.foldl
      (fun (m : GoMap α) i => m.set (label i) i) []) ↔ ∃ d ∈ pages.flatten, label d = k := by
    intro k
    rw [foldl_set_mem_keys]
    simp [GoMap.keys]
  refine ⟨pages.flatten.foldl (fun (m : GoMap α) i => m.set (label i) i) [], ?_, hkeys, ?_, ?_⟩
  · exact pageLoop_delivers list label verdict hv opt s s1 pages hd fuel [] hf
  · exact len_eq_distinct label _ _ (foldl_set_nodup label _ [] List.nodup_nil) hkeys
  · intro k
    rw [foldl_set_get?]
    simp [GoMap.get?]

/-- C1: when the lister delivers the pages `pages` and signals the last page first on the last
of them, `GetImages` and `GetSizes` (with one unit of fuel per page) return, with a nil
error and the sorted keys, a map `m` such that: a string is a key of `m` exactly when it is the
derived label of a descriptor on one of the pages; `len(m)` is the number of distinct derived
labels; and `m[k]` is the descriptor found first when the pages are read backwards from the
end, that is the last one (latest page, latest position) with the label `k`. -/
theorem collectors_distinct_labels_last_wins :
    (∀ (σ : Type) (list : Lister σ Image) (s s1 : σ) (pages : List (List Image)) (fuel : Nat),
      Delivers list ⟨0, 0⟩ s pages s1 → pages.length ≤ fuel →
      ∃ m : GoMap Image,
        GetImages list fuel s = (.ret ⟨some (sortStrings m.keys), some m, none⟩, s1) ∧
        (∀ k, k ∈ m.keys ↔ ∃ d ∈ pages.flatten, imageLabel d = k) ∧
        m.len = ((pages.flatten.map imageLabel).dedup).length ∧
        ∀ k, m.get? k = pages.flatten.reverse.find? (fun d => imageLabel d == k)) ∧
    (∀ (σ : Type) (fmt2 : Rat → String) (list : Lister σ Size) (s s1 : σ)
      (pages : List (List Size)) (fuel : Nat),
      Delivers list ⟨0, 0⟩ s pages s1 → pages.length ≤ fuel →
      ∃ m : GoMap Size,
        GetSizes fmt2 list fuel s = (.ret ⟨some (sortStrings m.keys), some m, none⟩, s1) ∧
        (∀ k, k ∈ m.keys ↔ ∃ d ∈ pages.flatten, sizeLabel fmt2 d = k) ∧
        m.len = ((pages.flatten.map (sizeLabel fmt2)).dedup).length ∧
        ∀ k, m.get? k = pages.flatten.reverse.find? (fun d => sizeLabel fmt2 d == k)) := by
  constructor
  · intro σ list s s1 pages fuel hd hf
    exact pageLoop_last_wins list imageLabel imageVerdict (fun _ => rfl) _ s s1 pages fuel hd hf
  · intro σ fmt2 list s s1 pages fuel hd hf
    exact pageLoop_last_wins list (sizeLabel fmt2) (sizeVerdict fmt2) (fun _ => rfl) _ s s1
      pages fuel hd hf

theorem demoImages_delivers : Delivers demoImages ⟨0, 0⟩ 0 demoImagePages 2 :=
  @Delivers.more Nat Image demoImages ⟨0, 0⟩ 0 1 2 _ ⟨some ⟨false, .ok 1⟩⟩ ⟨false, .ok 1⟩ 1 _
    (by rfl) rfl rfl rfl
    (@Delivers.last Nat Image demoImages _ 1 2 _ ⟨some ⟨true, .ok 2⟩⟩ (by rfl) rfl)

/-- C1 at `demoImages`: two pages, three images, two distinct labels. -/
theorem collectors_distinct_labels_last_wins_witness :
    Delivers demoImages ⟨0, 0⟩ 0 demoImagePages 2 ∧
    ∃ m : GoMap Image,
      GetImages demoImages 2 0 = (.ret ⟨some (sortStrings m.keys), some m, none⟩, 2) ∧
      (∀ k, k ∈ m.keys ↔ ∃ d ∈ demoImagePages.flatten, imageLabel d = k) ∧
      m.len = ((demoImagePages.flatten.map imageLabel).dedup).length ∧
      ∀ k, m.get? k = demoImagePages.flatten.reverse.find? (fun d => imageLabel d == k) :=
  ⟨demoImages_delivers,
    collectors_distinct_labels_last_wins.1 Nat demoImages 0 2 demoImagePages 2
      demoImages_delivers (by decide)⟩

theorem foldl_region_nodup (regions : List Region) (m : GoMap Region) (hm : m.keys.Nodup) :
    GoMap.keys (regions.foldl (fun (m : GoMap Region) r => m.set (r.Name ++ " - " ++ r.Slug) r) m)
      |>.Nodup :=
  foldl_set_nodup (fun r : Region => r.Name ++ " - " ++ r.Slug) regions m hm

theorem GetRegions_consistent {σ : Type} (list : Lister σ Region) (s : σ)
    (h : (GetRegions list s).1.err = none) : (GetRegions list s).1.Consistent := by
  unfold GetRegions at h ⊢
  split at h
  · simp [failed] at h
  · rename_i regions resp s1 heq
    simp only [heq]
    exact finish_consistent _ (foldl_region_nodup regions [] List.nodup_nil)

/-- C2: whenever one of the five catalog functions returns with a nil error, the returned keys
are in ascending lexicographic order, hold no string twice, and hold a string exactly when the
returned map has an entry for it. -/
theorem catalog_keys_sorted_unique_and_matching :
    (∀ (σ : Type) (list : Lister σ Region) (s : σ),
      (GetRegions list s).1.err = none → (GetRegions list s).1.Consistent) ∧
    (∀ (σ : Type) (list : Lister σ Image) (fuel : Nat) (s s1 : σ) (c : Catalog Image),
      GetImages list fuel s = (.ret c, s1) → c.err = none → c.Consistent) ∧
    (∀ (σ : Type) (fmt2 : Rat → String) (list : Lister σ Size) (fuel : Nat) (s s1 : σ)
      (c : Catalog Size),
      GetSizes fmt2 list fuel s = (.ret c, s1) → c.err = none → c.Consistent) ∧
    (∀ (σ : Type) (list : Lister σ FloatingIP) (region : String) (fuel : Nat) (s s1 : σ)
      (c : Catalog FloatingIP),
      GetUnassignedFloatingIPs list region fuel s = (.ret c, s1) → c.err = none →
      c.Consistent) ∧
    (∀ (σ : Type) (list : Lister σ Volume) (region : String) (fuel : Nat) (s s1 : σ)
      (c : Catalog Volume),
      GetUnattachedVolumes list region fuel s = (.ret c, s1) → c.err = none →
      c.Consistent) := by
  refine ⟨?_, ?_, ?_, ?_, ?_⟩
  · intro σ list s h
    exact GetRegions_consistent list s h
  · intro σ list fuel s s1 c h hc
    exact pageLoop_consistent list _ fuel _ s s1 c h hc
  · intro σ fmt2 list fuel s s1 c h hc
    exact pageLoop_consistent list _ fuel _ s s1 c h hc
  · intro σ list region fuel s s1 c h hc
    exact pageLoop_consistent list _ fuel _ s s1 c h hc
  · intro σ list region fuel s s1 c h hc
    exact pageLoop_consistent list _ fuel _ s s1 c h hc

/-- C2 at `demoImages` and `demoRegions`: both return with a nil error. -/
theorem catalog_keys_sorted_unique_and_matching_witness :
    (GetRegions demoRegions 0).1.err = none ∧ (GetRegions demoRegions 0).1.Consistent ∧
    GetImages demoImages 2 0 =
      (.ret ⟨some ["Debian - 11", "Ubuntu - 20.04"],
        some [("Ubuntu - 20.04", ⟨3, "20.04", "Ubuntu", "ubuntu-20-04-b"⟩),
          ("Debian - 11", ⟨2, "11", "Debian", "debian-11"⟩)], none⟩, 2) ∧
    Catalog.Consistent (α := Image) ⟨some ["Debian - 11", "Ubuntu - 20.04"],
        some [("Ubuntu - 20.04", ⟨3, "20.04", "Ubuntu", "ubuntu-20-04-b"⟩),
          ("Debian - 11", ⟨2, "11", "Debian", "debian-11"⟩)], none⟩ :=
  ⟨rfl, catalog_keys_sorted_unique_and_matching.1 Nat demoRegions 0 rfl, by decide,
    catalog_keys_sorted_unique_and_matching.2.1 Nat demoImages 2 0 2 _ (by decide) rfl⟩

/-- C7: for each of the four paginated collectors, when the `n`-th request of its walk is the
first to fail with `err` (the request itself, or the reading of the current page number of a
response that does not signal the last page), the collector, given at least `n` units of fuel,
returns `nil, nil, err`, whatever `n` is; and the remote state it leaves is the state right
after the failing request, so that no request follows it. -/
theorem collectors_abort_on_first_error :
    (∀ (σ : Type) (list : Lister σ Image) (s s1 : σ) (n fuel : Nat) (err : String),
      FailsAt list imageVerdict ⟨0, 0⟩ s n err s1 → n ≤ fuel →
      GetImages list fuel s = (.ret ⟨none, none, some err⟩, s1)) ∧
    (∀ (σ : Type) (fmt2 : Rat → String) (list : Lister σ Size) (s s1 : σ) (n fuel : Nat)
      (err : String),
      FailsAt list (sizeVerdict fmt2) ⟨0, 0⟩ s n err s1 → n ≤ fuel →
      GetSizes fmt2 list fuel s = (.ret ⟨none, none, some err⟩, s1)) ∧
    (∀ (σ : Type) (list : Lister σ FloatingIP) (region : String) (s s1 : σ) (n fuel : Nat)
      (err : String),
      FailsAt list (floatingIPVerdict region) ⟨0, 0⟩ s n err s1 → n ≤ fuel →
      GetUnassignedFloatingIPs list region fuel s = (.ret ⟨none, none, some err⟩, s1)) ∧
    (∀ (σ : Type) (list : Lister σ Volume) (region : String) (s s1 : σ) (n fuel : Nat)
      (err : String),
      FailsAt list (volumeVerdict region) ⟨0, 0⟩ s n err s1 → n ≤ fuel →
      GetUnattachedVolumes list region fuel s = (.ret ⟨none, none, some err⟩, s1)) := by
  refine ⟨?_, ?_, ?_, ?_⟩
  · intro σ list s s1 n fuel err hf hn
    exact pageLoop_failsAt list _ _ s s1 n err hf fuel [] hn
  · intro σ fmt2 list s s1 n fuel err hf hn
    exact pageLoop_failsAt list _ _ s s1 n err hf fuel [] hn
  · intro σ list region s s1 n fuel err hf hn
    exact pageLoop_failsAt list _ _ s s1 n err hf fuel [] hn
  · intro σ list region s s1 n fuel err hf hn
    exact pageLoop_failsAt list _ _ s s1 n err hf fuel [] hn

theorem demoFailing_failsAt :
    FailsAt demoFailing imageVerdict ⟨0, 0⟩ [] 2 "connection reset" [0, 2] :=
  @FailsAt.later (List Int) Image demoFailing imageVerdict ⟨0, 0⟩ [] [0] [0, 2]
    [⟨1, "20.04", "Ubuntu", "ubuntu-20-04"⟩] ⟨some ⟨false, .ok 1⟩⟩ ⟨false, .ok 1⟩ 1 1
    "connection reset" (by rfl) (by decide) rfl rfl rfl (FailsAt.fetch (by rfl))

/-- C7 at `demoFailing`: the second request fails after one page was folded; the log of the
requests ends with it, however much fuel is left. -/
theorem collectors_abort_on_first_error_witness :
    FailsAt demoFailing imageVerdict ⟨0, 0⟩ [] 2 "connection reset" [0, 2] ∧
    GetImages demoFailing 7 [] = (.ret ⟨none, none, some "connection reset"⟩, [0, 2]) :=
  ⟨demoFailing_failsAt,
    collectors_abort_on_first_error.1 (List Int) demoFailing [] [0, 2] 2 7 "connection reset"
      demoFailing_failsAt (by decide)⟩

/-- A volume in the map returned by `GetUnattachedVolumes` has a region, and its slug is the
requested one. -/
theorem GetUnattachedVolumes_region {σ : Type} (list : Lister σ Volume) (region : String)
    (fuel : Nat) (s s1 : σ) (c : Catalog Volume) (m : GoMap Volume)
    (h : GetUnattachedVolumes list region fuel s = (.ret c, s1)) (hm : c.map = some m)
    (k : String) (v : Volume) (hkv : (k, v) ∈ m) :
    ∃ r, v.Region = some r ∧ r.Slug = region := by
  rcases pageLoop_mem list _ fuel _ [] m s s1 c h hm k v hkv with h1 | h1
  · simp at h1
  · unfold volumeVerdict at h1
    split at h1
    · simp at h1
    · rename_i r hr
      split at h1
      · rename_i hslug
        exact ⟨r, hr, by simpa using hslug⟩
      · simp at h1

/-- C6 at `demoVolumes`: the catalog returned for `nyc1` holds the volume `vol-1`, which is
attached to the droplet 42. -/
theorem GetUnattachedVolumes_returns_attached_volume :
    GetUnattachedVolumes demoVolumes "nyc1" 1 0 =
      (.ret ⟨some ["data - nyc1"],
        some [("data - nyc1", ⟨"vol-1", "data", some ⟨"nyc1", "New York 1"⟩, [42]⟩)], none⟩, 1) ∧
    (⟨"vol-1", "data", some ⟨"nyc1", "New York 1"⟩, [42]⟩ : Volume).DropletIDs ≠ [] := by
  decide

/-! ## The Size step -/

theorem stringsHasSuffix_iff (s suffix : String) :
    stringsHasSuffix s suffix = true ↔ ∃ pre : String, s = pre ++ suffix := by
  unfold stringsHasSuffix
  rw [List.isSuffixOf_iff_suffix]
  constructor
  · rintro ⟨t, ht⟩
    refine ⟨⟨t⟩, ?_⟩
    apply String.ext
    rw [String.data_append, ht]
  · rintro ⟨pre, rfl⟩
    exact ⟨pre.data, by rw [String.data_append]⟩

theorem mem_foldl_regions (answersRegion : String) (s : Size) (regions : List String)
    (acc : List Size) (x : Size) :
    x ∈ regions.foldl
        (fun acc region => if stringsHasSuffix answersRegion region then acc ++ [s] else acc)
        acc ↔
      x ∈ acc ∨ (x = s ∧ ∃ region ∈ regions, stringsHasSuffix answersRegion region = true) := by
  induction regions generalizing acc with
  | nil => simp
  | cons r rest ih =>
    rw [List.foldl_cons, ih]
    have hex : (∃ region ∈ r :: rest, stringsHasSuffix answersRegion region = true) ↔
        (stringsHasSuffix answersRegion r = true ∨
          ∃ region ∈ rest, stringsHasSuffix answersRegion region = true) := by
      simp
    rw [hex]
    by_cases hr : stringsHasSuffix answersRegion r = true
    · rw [if_pos hr, List.mem_append, List.mem_singleton]
      constructor
      · rintro ((h | h) | ⟨h, hs⟩)
        · exact Or.inl h
        · exact Or.inr ⟨h, Or.inl hr⟩
        · exact Or.inr ⟨h, Or.inr hs⟩
      · rintro (h | ⟨h, _⟩)
        · exact Or.inl (Or.inl h)
        · exact Or.inl (Or.inr h)
    · rw [if_neg hr]
      constructor
      · rintro (h | ⟨h, hs⟩)
        · exact Or.inl h
        · exact Or.inr ⟨h, Or.inr hs⟩
      · rintro (h | ⟨h, hs | hs⟩)
        · exact Or.inl h
        · exact absurd hs hr
        · exact Or.inr ⟨h, hs⟩

theorem mem_size_step (answersRegion : String) (v : Size) (acc : List Size) (x : Size) :
    x ∈ (if stringsContains v.Slug '-' then
          if v.Available then
            v.Regions.foldl
              (fun acc region =>
                if stringsHasSuffix answersRegion region then acc ++ [v] else acc)
              acc
          else acc
        else acc) ↔
      x ∈ acc ∨ (x = v ∧ sizeEligible answersRegion v = true) := by
  by_cases h1 : stringsContains v.Slug '-' = true
  · by_cases h2 : v.Available = true
    · rw [if_pos h1, if_pos h2, mem_foldl_regions]
      simp [sizeEligible, h1, h2, List.any_eq_true]
    · rw [if_pos h1, if_neg h2]
      simp only [Bool.not_eq_true] at h2
      simp [sizeEligible, h2]
  · rw [if_neg h1]
    simp only [Bool.not_eq_true] at h1
    simp [sizeEligible, h1]

theorem mem_foldl_sizes (answersRegion : String) (vals : List Size) (acc : List Size)
    (x : Size) :
    x ∈ vals.foldl
        (fun acc s =>
          if stringsContains s.Slug '-' then
            if s.Available then
              s.Regions.foldl
                (fun acc region =>
                  if stringsHasSuffix answersRegion region then acc ++ [s] else acc)
                acc
            else acc
          else acc)
        acc ↔
      x ∈ acc ∨ (x ∈ vals ∧ sizeEligible answersRegion x = true) := by
  induction vals generalizing acc with
  | nil => simp
  | cons v rest ih =>
    rw [List.foldl_cons, ih, mem_size_step, List.mem_cons]
    constructor
    · rintro ((h | ⟨h, he⟩) | ⟨h, he⟩)
      · exact Or.inl h
      · exact Or.inr ⟨Or.inl h, h ▸ he⟩
      · exact Or.inr ⟨Or.inr h, he⟩
    · rintro (h | ⟨h | h, he⟩)
      · exact Or.inl (Or.inl h)
      · exact Or.inl (Or.inr ⟨h, h ▸ he⟩)
      · exact Or.inr ⟨h, he⟩

/-- The filtered list holds exactly the sizes of the catalog that pass the three tests. -/
theorem mem_dropletSizesOf (answersRegion : String) (sizesMap : GoMap Size) (x : Size) :
    x ∈ dropletSizesOf answersRegion sizesMap ↔
      x ∈ sizesMap.values ∧ sizeEligible answersRegion x = true := by
  unfold dropletSizesOf
  rw [mem_foldl_sizes]
  simp

theorem dropletSizesOf_eq_nil_iff (answersRegion : String) (sizesMap : GoMap Size) :
    dropletSizesOf answersRegion sizesMap = [] ↔
      ∀ s ∈ sizesMap.values, sizeEligible answersRegion s = false := by
  rw [List.eq_nil_iff_forall_not_mem]
  constructor
  · intro h s hs
    by_contra hne
    exact h s ((mem_dropletSizesOf _ _ s).2 ⟨hs, by simpa using hne⟩)
  · intro h s hs
    have := (mem_dropletSizesOf _ _ s).1 hs
    rw [h s this.1] at this
    simp at this

theorem sortSlice_perm (l : List Size) : (sortSlice l).Perm l :=
  List.perm_insertionSort _ l

theorem sortSlice_sorted (l : List Size) :
    List.Sorted (fun a b : Size => a.PriceMonthly ≤ b.PriceMonthly) (sortSlice l) := by
  haveI : IsTotal Size (fun a b : Size => a.PriceMonthly ≤ b.PriceMonthly) :=
    ⟨fun a b => le_total a.PriceMonthly b.PriceMonthly⟩
  haveI : IsTrans Size (fun a b : Size => a.PriceMonthly ≤ b.PriceMonthly) :=
    ⟨fun _ _ _ hab hbc => le_trans hab hbc⟩
  exact List.sorted_insertionSort _ l

/-- The Size step on a non-empty filtered list: the options are the labels of the sorted
sizes, and the default is the first of them. -/
theorem sizeOptions_of_ne_nil (fmt2 : Rat → String) (answersRegion : String)
    (sizesMap : GoMap Size) (h : dropletSizesOf answersRegion sizesMap ≠ []) :
    ∃ (first : Size) (rest : List Size),
      sortSlice (dropletSizesOf answersRegion sizesMap) = first :: rest ∧
      sizeOptions fmt2 answersRegion sizesMap =
        .ret (sizeLabel fmt2 first, (first :: rest).map (sizeLabel fmt2)) := by
  have hlen : ((dropletSizesOf answersRegion sizesMap).length == 0) = false := by
    simpa using h
  cases hs : sortSlice (dropletSizesOf answersRegion sizesMap) with
  | nil =>
    have := (sortSlice_perm (dropletSizesOf answersRegion sizesMap)).length_eq
    rw [hs] at this
    exact absurd (List.length_eq_zero.1 this.symm) h
  | cons first rest =>
    refine ⟨first, rest, rfl, ?_⟩
    simp only [sizeOptions, hlen, hs, List.map_cons]
    rfl

theorem sizeOptions_of_nil (fmt2 : Rat → String) (answersRegion : String)
    (sizesMap : GoMap Size) (h : dropletSizesOf answersRegion sizesMap = []) :
    sizeOptions fmt2 answersRegion sizesMap = .fatal "Droplet sizes list is empty" := by
  simp [sizeOptions, h]

theorem stringsContains_iff (s : String) (c : Char) :
    stringsContains s c = true ↔ c ∈ s.data := by
  simp [stringsContains]

/-- C3 as stated fails at `demoOddSizes`: for the region chosen by its label
"New York 1 - nyc1", whose slug is `nyc1`, the filtered list holds the size `s-1vcpu-1gb`,
whose region list is `c1` alone; `c1` is a suffix of the label. -/
theorem filtered_size_need_not_support_region :
    (GetRegions demoRegions 0).1.entries.get "New York 1 - nyc1" = ⟨"nyc1", "New York 1"⟩ ∧
    dropletSizesOf "New York 1 - nyc1" demoOddSizes = [⟨"s-1vcpu-1gb", 5, ["c1"], true⟩] ∧
    ¬ ∀ s ∈ dropletSizesOf "New York 1 - nyc1" demoOddSizes,
        ((GetRegions demoRegions 0).1.entries.get "New York 1 - nyc1").Slug ∈ s.Regions ∧
        s.Available = true ∧ '-' ∈ s.Slug.data := by
  decide

/-- C3, amended: every size in the filtered list of the wizard is a size of the catalog, has in
its region list a slug that is a suffix of the chosen region label (the string `answers.Region`,
of the form "name - slug"), is marked available, and has a slug that contains `-`. -/
theorem filtered_sizes_pass_suffix_available_dash (answersRegion : String)
    (sizesMap : GoMap Size) (s : Size) (hs : s ∈ dropletSizesOf answersRegion sizesMap) :
    s ∈ sizesMap.values ∧
    (∃ region ∈ s.Regions, ∃ pre : String, answersRegion = pre ++ region) ∧
    s.Available = true ∧ '-' ∈ s.Slug.data := by
  obtain ⟨hmem, helig⟩ := (mem_dropletSizesOf answersRegion sizesMap s).1 hs
  simp only [sizeEligible, Bool.and_eq_true, List.any_eq_true] at helig
  obtain ⟨⟨hdash, havail⟩, region, hregion, hsuffix⟩ := helig
  exact ⟨hmem, ⟨region, hregion, (stringsHasSuffix_iff _ _).1 hsuffix⟩, havail,
    (stringsContains_iff _ _).1 hdash⟩

/-- C3, amended, at `demoSizes` and the region label "New York 1 - nyc1". -/
theorem filtered_sizes_pass_suffix_available_dash_witness :
    (⟨"s-1vcpu-1gb", 5, ["nyc1"], true⟩ : Size) ∈ dropletSizesOf "New York 1 - nyc1" demoSizes ∧
    ((⟨"s-1vcpu-1gb", 5, ["nyc1"], true⟩ : Size) ∈ demoSizes.values ∧
      (∃ region ∈ (⟨"s-1vcpu-1gb", 5, ["nyc1"], true⟩ : Size).Regions,
        ∃ pre : String, "New York 1 - nyc1" = pre ++ region) ∧
      (⟨"s-1vcpu-1gb", 5, ["nyc1"], true⟩ : Size).Available = true ∧
      '-' ∈ (⟨"s-1vcpu-1gb", 5, ["nyc1"], true⟩ : Size).Slug.data) :=
  ⟨by decide,
    filtered_sizes_pass_suffix_available_dash "New York 1 - nyc1" demoSizes
      ⟨"s-1vcpu-1gb", 5, ["nyc1"], true⟩ (by decide)⟩

theorem step_region_text (w : Wizard) (regionDefault : String) (answers : Answers)
    (r : String) :
    step w (.region regionDefault) answers (.text r) =
      match sizeOptions w.fmt2 r w.sizes.entries with
      | .ret (default, options) => .waiting (.size default options) { answers with Region := r }
      | .fatal msg => .ended (.fatal msg)
      | _ => .ended .panic := rfl

/-- C4: when the filtered size list is not empty, the answer to the region question leads to
the size question; its options are the labels of the filtered sizes arranged so that no size
is followed by a cheaper one, and its default is the first label, the label of a filtered size
that no filtered size undercuts. -/
theorem size_options_ascending_price_default_cheapest (w : Wizard) (regionDefault : String)
    (answers : Answers) (r : String) (h : dropletSizesOf r w.sizes.entries ≠ []) :
    ∃ (first : Size) (rest : List Size),
      step w (.region regionDefault) answers (.text r) =
        .waiting (.size (sizeLabel w.fmt2 first) ((first :: rest).map (sizeLabel w.fmt2)))
          { answers with Region := r } ∧
      (first :: rest).Perm (dropletSizesOf r w.sizes.entries) ∧
      List.Sorted (fun a b : Size => a.PriceMonthly ≤ b.PriceMonthly) (first :: rest) ∧
      first ∈ dropletSizesOf r w.sizes.entries ∧
      ∀ s ∈ dropletSizesOf r w.sizes.entries, first.PriceMonthly ≤ s.PriceMonthly := by
  obtain ⟨first, rest, hsort, hopt⟩ := sizeOptions_of_ne_nil w.fmt2 r w.sizes.entries h
  have hperm : (first :: rest).Perm (dropletSizesOf r w.sizes.entries) :=
    hsort ▸ sortSlice_perm _
  have hsorted : List.Sorted (fun a b : Size => a.PriceMonthly ≤ b.PriceMonthly)
      (first :: rest) := hsort ▸ sortSlice_sorted _
  refine ⟨first, rest, ?_, hperm, hsorted, hperm.mem_iff.1 (List.mem_cons_self _ _), ?_⟩
  · rw [step_region_text, hopt]
  · intro s hs
    rcases List.mem_cons.1 (hperm.mem_iff.2 hs) with rfl | hrest
    · exact le_refl _
    · exact List.rel_of_sorted_cons hsorted s hrest

/-- C4 at `demoWizard`: of the two eligible sizes in `nyc1` the one for $5 comes first and is
the default, though the catalog lists the one for $15 first. -/
theorem size_options_ascending_price_default_cheapest_witness :
    dropletSizesOf "New York 1 - nyc1" demoWizard.sizes.entries ≠ [] ∧
    step demoWizard (.region "New York 1 - nyc1") default (.text "New York 1 - nyc1") =
      .waiting (.size "s-1vcpu-1gb - $5.00/month"
          ["s-1vcpu-1gb - $5.00/month", "s-2vcpu-2gb - $15.00/month"])
        { (default : Answers) with Region := "New York 1 - nyc1" } ∧
    ∃ (first : Size) (rest : List Size),
      step demoWizard (.region "New York 1 - nyc1") default (.text "New York 1 - nyc1") =
        .waiting (.size (sizeLabel demoWizard.fmt2 first)
            ((first :: rest).map (sizeLabel demoWizard.fmt2)))
          { (default : Answers) with Region := "New York 1 - nyc1" } ∧
      (first :: rest).Perm (dropletSizesOf "New York 1 - nyc1" demoWizard.sizes.entries) ∧
      List.Sorted (fun a b : Size => a.PriceMonthly ≤ b.PriceMonthly) (first :: rest) ∧
      first ∈ dropletSizesOf "New York 1 - nyc1" demoWizard.sizes.entries ∧
      ∀ s ∈ dropletSizesOf "New York 1 - nyc1" demoWizard.sizes.entries,
        first.PriceMonthly ≤ s.PriceMonthly :=
  ⟨by decide, by decide,
    size_options_ascending_price_default_cheapest demoWizard "New York 1 - nyc1" default
      "New York 1 - nyc1" (by decide)⟩

/-- C5: the answer to the region question ends the run with a fatal message exactly when no
size of the catalog passes the three tests of the filter (dash in the slug, available, a region
of its list is a suffix of the answer); and when some size passes, the run goes on to the size
question with a non-empty list of options whose first element is the default, so that reading
`dropletSizeNames[0]` does not fail. -/
theorem size_step_fatal_iff_no_size_passes (w : Wizard) (regionDefault : String)
    (answers : Answers) (r : String) :
    ((∃ msg, step w (.region regionDefault) answers (.text r) = .ended (.fatal msg)) ↔
      ∀ s ∈ w.sizes.entries.values, sizeEligible r s = false) ∧
    ((∃ s ∈ w.sizes.entries.values, sizeEligible r s = true) →
      ∃ (first : String) (rest : List String),
        step w (.region regionDefault) answers (.text r) =
          .waiting (.size first (first :: rest)) { answers with Region := r }) := by
  have hsome : dropletSizesOf r w.sizes.entries ≠ [] →
      ∃ (first : String) (rest : List String),
        step w (.region regionDefault) answers (.text r) =
          .waiting (.size first (first :: rest)) { answers with Region := r } := by
    intro hne
    obtain ⟨first, rest, _, hopt⟩ := sizeOptions_of_ne_nil w.fmt2 r w.sizes.entries hne
    exact ⟨sizeLabel w.fmt2 first, rest.map (sizeLabel w.fmt2), by
      rw [step_region_text, hopt]; rfl⟩
  constructor
  · constructor
    · rintro ⟨msg, hmsg⟩
      rw [← dropletSizesOf_eq_nil_iff]
      by_contra hne
      obtain ⟨first, rest, hstep⟩ := hsome hne
      rw [hstep] at hmsg
      simp at hmsg
    · intro hnone
      have hnil := (dropletSizesOf_eq_nil_iff r w.sizes.entries).2 hnone
      exact ⟨"Droplet sizes list is empty", by
        rw [step_region_text, sizeOptions_of_nil w.fmt2 r w.sizes.entries hnil]⟩
  · rintro ⟨s, hs, helig⟩
    apply hsome
    intro hnil
    have := (dropletSizesOf_eq_nil_iff r w.sizes.entries).1 hnil s hs
    rw [this] at helig
    simp at helig

/-- C5 at `demoWizard`: the region `nyc1` has eligible sizes, and for the region `ams3`,
which no size lists, the run ends with the fatal message. -/
theorem size_step_fatal_iff_no_size_passes_witness :
    (∃ s ∈ demoWizard.sizes.entries.values, sizeEligible "New York 1 - nyc1" s = true) ∧
    (∃ (first : String) (rest : List String),
      step demoWizard (.region "New York 1 - nyc1") default (.text "New York 1 - nyc1") =
        .waiting (.size first (first :: rest))
          { (default : Answers) with Region := "New York 1 - nyc1" }) ∧
    step demoWizard (.region "New York 1 - nyc1") default (.text "Amsterdam 3 - ams3") =
      .ended (.fatal "Droplet sizes list is empty") :=
  ⟨by decide,
    (size_step_fatal_iff_no_size_passes demoWizard "New York 1 - nyc1" default
      "New York 1 - nyc1").2 (by decide),
    by decide⟩

/-! ## The flow of questions -/

theorem run_ended (w : Wizard) (r : Exec Configuration) (es : List Event) :
    run w (.ended r) es = .ended r := by
  cases es <;> rfl

theorem run_invalid (w : Wizard) (es : List Event) : run w .invalid es = .invalid := by
  cases es <;> rfl

theorem run_cons (w : Wizard) (p : Prompt) (a : Answers) (e : Event) (es : List Event) :
    run w (.waiting p a) (e :: es) = run w (step w p a e) es := rfl

/-- A run through a script is the run through its first part, continued through the rest. -/
theorem run_append (w : Wizard) (st : State) (pre post : List Event) :
    run w st (pre ++ post) = run w (run w st pre) post := by
  induction pre generalizing st with
  | nil => cases st <;> cases post <;> rfl
  | cons e pre ih =>
    cases st with
    | waiting p a => exact ih _
    | ended r => rw [List.cons_append, run_ended, run_ended, run_ended]
    | invalid => rw [List.cons_append, run_invalid, run_invalid, run_invalid]

/-- What a step to a further suspension point leaves alone: the name question is not asked
again; after it the name stays; the volume sub-flow is not left and keeps the floating IP;
and the floating IP changes only on the way into the volume sub-flow. -/
theorem step_waiting (w : Wizard) (p p1 : Prompt) (a a1 : Answers) (e : Event)
    (h : step w p a e = .waiting p1 a1) :
    (∀ d, p1 ≠ .name d) ∧
    ((∀ d, p ≠ .name d) → a1.Name = a.Name) ∧
    (p.phase = .volumes → p1.phase = .volumes ∧ a1.FloatingIP = a.FloatingIP) ∧
    (p1.phase ≠ .volumes → a1.FloatingIP = a.FloatingIP) := by
  cases p <;> cases e <;> simp only [step, onText, onConfirm, onNumber] at h <;>
    (try split at h) <;> (try split at h) <;>
    (try simp only [State.waiting.injEq, reduceCtorEq] at h) <;>
    (try (obtain ⟨rfl, rfl⟩ := h)) <;>
    simp [Prompt.phase]

/-- The only step that reaches `saveConfig` is the answer no to the volume question. -/
theorem step_saved (w : Wizard) (p : Prompt) (a : Answers) (e : Event) (cfg : Configuration)
    (h : step w p a e = .ended (.ret cfg)) :
    p = .moreVolumes ∧ e = .confirm false ∧ assemble w a = .ret cfg := by
  cases p <;> cases e <;> simp only [step, onText, onConfirm, onNumber] at h <;>
    (try split at h) <;> (try split at h) <;> simp_all

/-- A run that reaches `saveConfig` hands over the result of the Assemble step on answers that
keep the name given to the first question and the floating IP held when the volume
sub-flow began. -/
theorem run_saved (w : Wizard) (es : List Event) (p : Prompt) (a : Answers)
    (cfg : Configuration) (h : run w (.waiting p a) es = .ended (.ret cfg)) :
    ∃ a1 : Answers, assemble w a1 = .ret cfg ∧
      ((∀ d, p ≠ .name d) → a1.Name = a.Name) ∧
      (p.phase = .volumes → a1.FloatingIP = a.FloatingIP) := by
  induction es generalizing p a with
  | nil => simp [run] at h
  | cons e es ih =>
    rw [run_cons] at h
    cases hstep : step w p a e with
    | waiting p1 a1 =>
      rw [hstep] at h
      obtain ⟨a2, hasm, hname, hfip⟩ := ih p1 a1 h
      obtain ⟨hp1, hn, hv, _⟩ := step_waiting w p p1 a a1 e hstep
      exact ⟨a2, hasm, fun hp => (hname hp1).trans (hn hp),
        fun hp => (hfip (hv hp).1).trans (hv hp).2⟩
    | ended r =>
      rw [hstep, run_ended] at h
      simp only [State.ended.injEq] at h
      subst h
      obtain ⟨_, _, hasm⟩ := step_saved w p a e cfg hstep
      exact ⟨a, hasm, fun _ => rfl, fun _ => rfl⟩
    | invalid =>
      rw [hstep, run_invalid] at h
      simp at h

theorem run_volumes_stay (w : Wizard) (es : List Event) (p p1 : Prompt) (a a1 : Answers)
    (hp : p.phase = .volumes) (h : run w (.waiting p a) es = .waiting p1 a1) :
    p1.phase = .volumes := by
  induction es generalizing p a with
  | nil =>
    simp only [run, State.waiting.injEq] at h
    exact h.1 ▸ hp
  | cons e es ih =>
    rw [run_cons] at h
    cases hstep : step w p a e with
    | waiting p2 a2 =>
      rw [hstep] at h
      exact ih p2 a2 ((step_waiting w p p2 a a2 e hstep).2.2.1 hp).1 h
    | ended r =>
      rw [hstep, run_ended] at h
      simp at h
    | invalid =>
      rw [hstep, run_invalid] at h
      simp at h

/-- Before the volume sub-flow begins, an empty `answers.FloatingIP` stays empty. -/
theorem run_floatingIP_empty (w : Wizard) (es : List Event) (p p1 : Prompt) (a a1 : Answers)
    (ha : a.FloatingIP = "") (h : run w (.waiting p a) es = .waiting p1 a1)
    (hp1 : p1.phase ≠ .volumes) : a1.FloatingIP = "" := by
  induction es generalizing p a with
  | nil =>
    simp only [run, State.waiting.injEq] at h
    exact h.2 ▸ ha
  | cons e es ih =>
    rw [run_cons] at h
    cases hstep : step w p a e with
    | waiting p2 a2 =>
      rw [hstep] at h
      obtain ⟨_, _, _, hnv⟩ := step_waiting w p p2 a a2 e hstep
      by_cases hp2 : p2.phase = .volumes
      · exact absurd (run_volumes_stay w es p2 p1 a2 a1 hp2 h) hp1
      · exact ih p2 a2 ((hnv hp2).trans ha) h
    | ended r =>
      rw [hstep, run_ended] at h
      simp at h
    | invalid =>
      rw [hstep, run_invalid] at h
      simp at h

theorem start_waiting (w : Wizard) (p : Prompt) (a : Answers) (h : start w = .waiting p a) :
    (∃ d, p = .name d) ∧ a = default := by
  unfold start at h
  split at h
  · simp at h
  · split at h
    · simp at h
    · split at h
      · simp at h
      · split at h
        · simp at h
        · simp only [State.waiting.injEq] at h
          exact ⟨⟨_, h.1.symm⟩, h.2.symm⟩

theorem start_not_saved (w : Wizard) (cfg : Configuration) : start w ≠ .ended (.ret cfg) := by
  intro hs
  unfold start at hs
  split at hs
  · simp at hs
  · split at hs
    · simp at hs
    · split at hs
      · simp at hs
      · split at hs <;> simp at hs

/-- At every suspension point of a run before the volume sub-flow, `answers.FloatingIP` is
empty. -/
theorem configCreateRun_floatingIP_empty (w : Wizard) (script : List Event) (p : Prompt)
    (a : Answers) (h : configCreateRun w script = .waiting p a) (hp : p.phase ≠ .volumes) :
    a.FloatingIP = "" := by
  unfold configCreateRun at h
  cases hs : start w with
  | waiting p0 a0 =>
    rw [hs] at h
    obtain ⟨_, ha0⟩ := start_waiting w p0 a0 hs
    exact run_floatingIP_empty w script p0 p a0 a (by rw [ha0]; rfl) h hp
  | ended r =>
    rw [hs, run_ended] at h
    simp at h
  | invalid =>
    rw [hs, run_invalid] at h
    simp at h

/-! ## The Assemble step -/

theorem splitChars_no_sep (sep : Char) (cs : List Char) (h : sep ∉ cs) :
    splitChars sep cs = [cs] := by
  induction cs with
  | nil => rfl
  | cons c cs ih =>
    have hc : ¬ c = sep := fun hc => h (hc ▸ List.mem_cons_self _ _)
    have hcs : sep ∉ cs := fun hm => h (List.mem_cons_of_mem _ hm)
    simp only [splitChars, hc, if_false, ih hcs]

theorem splitChars_first (sep : Char) (cs rest : List Char) (h : sep ∉ cs) :
    splitChars sep (cs ++ sep :: rest) = cs :: splitChars sep rest := by
  induction cs with
  | nil => simp [splitChars]
  | cons c cs ih =>
    have hc : ¬ c = sep := fun hc => h (hc ▸ List.mem_cons_self _ _)
    have hcs : sep ∉ cs := fun hm => h (List.mem_cons_of_mem _ hm)
    show splitChars sep (c :: (cs ++ sep :: rest)) = _
    rw [splitChars, if_neg hc, ih hcs]

/-- An address without a space is its own first field. -/
theorem floatingIPField_address (ip : String) (h : ' ' ∉ ip.data) :
    floatingIPField ip = .ret ip := by
  simp [floatingIPField, stringsSplit, splitChars_no_sep ' ' ip.data h]

/-- The first field of a label "address - slug" is the address, when it has no space. -/
theorem floatingIPField_label (ip slug : String) (h : ' ' ∉ ip.data) :
    floatingIPField (ip ++ " - " ++ slug) = .ret ip := by
  have hdata : (ip ++ " - " ++ slug).data = ip.data ++ ' ' :: ('-' :: ' ' :: slug.data) := by
    simp [String.data_append]
  simp [floatingIPField, stringsSplit, hdata, splitChars_first ' ' ip.data _ h]

theorem floatingIPField_empty : floatingIPField "" = .ret "" := by decide

/-- The Assemble step stores the new entry under the name answered, with this name, and with
the first field of `answers.FloatingIP`; the other entries of the map are those of `set`. -/
theorem assemble_ret (w : Wizard) (a : Answers) (cfg : Configuration)
    (h : assemble w a = .ret cfg) :
    ∃ d : DropletConfig, cfg.Droplets.get? a.Name = some d ∧ d.Name = a.Name ∧
      floatingIPField a.FloatingIP = .ret d.FloatingIP ∧
      cfg = { w.config with Droplets := w.config.Droplets.set a.Name d } := by
  unfold assemble at h
  split at h
  · rename_i fip hfip
    simp only [Exec.ret.injEq] at h
    subst h
    refine ⟨_, ?_, rfl, hfip, rfl⟩
    simp [GoMap.get?_set]
  · simp at h

/-- What a run hands to `saveConfig` when it leaves the floating-IP sub-flow with the answers
`a` and then reaches the end. -/
theorem saved_after_floatingIP (w : Wizard) (a : Answers) (post : List Event)
    (cfg : Configuration) (h : run w (.waiting .moreVolumes a) post = .ended (.ret cfg)) :
    ∃ d : DropletConfig, cfg.Droplets.get? a.Name = some d ∧
      floatingIPField a.FloatingIP = .ret d.FloatingIP := by
  obtain ⟨a1, hasm, hname, hfip⟩ := run_saved w post .moreVolumes a cfg h
  obtain ⟨d, hget, _, hfield, _⟩ := assemble_ret w a1 cfg hasm
  have h1 : a1.Name = a.Name := hname (fun d => by simp)
  have h2 : a1.FloatingIP = a.FloatingIP := hfip rfl
  exact ⟨d, h1 ▸ hget, h2 ▸ hfield⟩

/-- A label that `GetUnassignedFloatingIPs` stores has the form "address - slug". -/
theorem floatingIPVerdict_put (region label : String) (i : FloatingIP)
    (h : floatingIPVerdict region i = .put label) :
    ∃ slug : String, label = i.IP ++ " - " ++ slug := by
  unfold floatingIPVerdict at h
  split at h
  · simp at h
  · split at h
    · simp only [Verdict.put.injEq] at h
      exact ⟨_, h.symm⟩
    · simp at h

/-- C8: in a run that reaches `saveConfig`, the entry stored under the name answered has as
`FloatingIP` (1) the address `i.IP`, when the operator chose, among the existing floating IPs,
the label under which `GetUnassignedFloatingIPs` stores `i` and the address has no space;
(2) the address returned by `CreateFloatingIP`, when it has no space; (3) the empty string,
when the operator answered no to the floating-IP question. -/
theorem floatingIP_field_is_the_address (w : Wizard) :
    (∀ (pre post : List Event) (options : List String) (a : Answers) (region label : String)
      (i : FloatingIP) (cfg : Configuration),
      floatingIPVerdict region i = .put label → ' ' ∉ i.IP.data →
      configCreateRun w pre = .waiting (.chooseFloatingIP options) a →
      configCreateRun w (pre ++ .text label :: post) = .ended (.ret cfg) →
      ∃ d, cfg.Droplets.get? a.Name = some d ∧ d.FloatingIP = i.IP) ∧
    (∀ (pre post : List Event) (region : String) (a : Answers) (ip : String)
      (cfg : Configuration),
      ' ' ∉ ip.data →
      configCreateRun w pre = .waiting (.createFloatingIP region) a →
      configCreateRun w (pre ++ .createdFloatingIP (.ok ip) :: post) = .ended (.ret cfg) →
      ∃ d, cfg.Droplets.get? a.Name = some d ∧ d.FloatingIP = ip) ∧
    (∀ (pre post : List Event) (a : Answers) (cfg : Configuration),
      configCreateRun w pre = .waiting .assignFloatingIP a →
      configCreateRun w (pre ++ .confirm false :: post) = .ended (.ret cfg) →
      ∃ d, cfg.Droplets.get? a.Name = some d ∧ d.FloatingIP = "") := by
  refine ⟨?_, ?_, ?_⟩
  · intro pre post options a region label i cfg hput hip hpre hrun
    obtain ⟨slug, rfl⟩ := floatingIPVerdict_put region label i hput
    unfold configCreateRun at hpre hrun
    rw [run_append, hpre, run_cons] at hrun
    obtain ⟨d, hget, hfield⟩ := saved_after_floatingIP w _ post cfg hrun
    simp only [floatingIPField_label i.IP slug hip, Exec.ret.injEq] at hfield
    exact ⟨d, hget, hfield.symm⟩
  · intro pre post region a ip cfg hip hpre hrun
    unfold configCreateRun at hpre hrun
    rw [run_append, hpre, run_cons] at hrun
    obtain ⟨d, hget, hfield⟩ := saved_after_floatingIP w _ post cfg hrun
    simp only [floatingIPField_address ip hip, Exec.ret.injEq] at hfield
    exact ⟨d, hget, hfield.symm⟩
  · intro pre post a cfg hpre hrun
    have hempty := configCreateRun_floatingIP_empty w pre _ a hpre (by simp [Prompt.phase])
    unfold configCreateRun at hpre hrun
    rw [run_append, hpre, run_cons] at hrun
    obtain ⟨d, hget, hfield⟩ := saved_after_floatingIP w _ post cfg hrun
    rw [hempty, floatingIPField_empty] at hfield
    simp only [Exec.ret.injEq] at hfield
    exact ⟨d, hget, hfield.symm⟩

/-- C8 at `demoWizard`: the operator chooses the label "10.0.0.7 - nyc1" and declines a
volume; the entry `web-2` gets the floating IP "10.0.0.7". -/
theorem floatingIP_field_is_the_address_witness :
    floatingIPVerdict "nyc1" demoFloatingIP = .put "10.0.0.7 - nyc1" ∧
    ' ' ∉ demoFloatingIP.IP.data ∧
    configCreateRun demoWizard demoScript =
      .waiting (.chooseFloatingIP ["10.0.0.7 - nyc1"])
        ⟨"web-2", "Ubuntu - 20.04", "New York 1 - nyc1", "s-1vcpu-1gb - $5.00/month", "", []⟩ ∧
    configCreateRun demoWizard (demoScript ++ .text "10.0.0.7 - nyc1" :: [.confirm false]) =
      .ended (.ret ⟨"token",
        [("web-2", ⟨"web-2", "s-1vcpu-1gb", "ubuntu-20-04-b", "nyc1", "10.0.0.7", []⟩),
         ("web-1", ⟨"web-1", "s-1vcpu-1gb", "debian-11", "sfo1", "", []⟩)]⟩) ∧
    ∃ d, GoMap.get?
        [("web-2", (⟨"web-2", "s-1vcpu-1gb", "ubuntu-20-04-b", "nyc1", "10.0.0.7", []⟩ :
            DropletConfig)),
         ("web-1", ⟨"web-1", "s-1vcpu-1gb", "debian-11", "sfo1", "", []⟩)] "web-2" = some d ∧
      d.FloatingIP = "10.0.0.7" :=
  ⟨by decide, by decide, by decide, by decide,
    (floatingIP_field_is_the_address demoWizard).1 demoScript [.confirm false]
      ["10.0.0.7 - nyc1"]
      ⟨"web-2", "Ubuntu - 20.04", "New York 1 - nyc1", "s-1vcpu-1gb - $5.00/month", "", []⟩
      "nyc1" "10.0.0.7 - nyc1" demoFloatingIP
      ⟨"token",
        [("web-2", ⟨"web-2", "s-1vcpu-1gb", "ubuntu-20-04-b", "nyc1", "10.0.0.7", []⟩),
         ("web-1", ⟨"web-1", "s-1vcpu-1gb", "debian-11", "sfo1", "", []⟩)]⟩
      (by decide) (by decide) (by decide) (by decide)⟩

/-! ## The floating-IP sub-flow -/

theorem round_empty (w : Wizard) (answers : Answers) (choice : String) (c : Catalog FloatingIP)
    (hchoice : choice ≠ createIPmsg (w.regions.entries.get answers.Region).Slug)
    (herr : c.err = none) (hkeys : c.keyList = []) :
    run w (.waiting .assignFloatingIP answers)
      [.confirm true, .text choice, .floatingIPs c] = .waiting .assignFloatingIP answers := by
  simp [run, step, onConfirm, onText, hchoice, herr, hkeys]

theorem rounds_empty (w : Wizard) (answers : Answers) (choice : String) (c : Catalog FloatingIP)
    (hchoice : choice ≠ createIPmsg (w.regions.entries.get answers.Region).Slug)
    (herr : c.err = none) (hkeys : c.keyList = []) (n : Nat) :
    run w (.waiting .assignFloatingIP answers)
      (List.replicate n [Event.confirm true, .text choice, .floatingIPs c]).flatten =
      .waiting .assignFloatingIP answers := by
  induction n with
  | zero => rfl
  | succ n ih =>
    rw [List.replicate_succ, List.flatten_cons, run_append,
      round_empty w answers choice c hchoice herr hkeys, ih]

/-- C9: the floating-IP sub-flow as a step relation.  (1) When `GetFloatingIPs` returns no
error and no key, the next suspension point is the yes/no question, with the answers
unchanged.  (2) However often the operator answers yes and then "use existing" while the
catalog is empty, the run is at the yes/no question again, with the answers unchanged: it has
not ended and has not set `FloatingIP`.  (3) A step from a point of the sub-flow to a further
suspension point either stays in the sub-flow and leaves the answers unchanged, or leaves it
for the volume question, and then it is the answer no, or an address returned by
`CreateFloatingIP`, or a choice among existing floating IPs.  (4) The choice among existing
floating IPs is offered only after `GetFloatingIPs` returned without error a list of keys
that is not empty. -/
theorem floatingIP_subflow_reprompts_on_empty_catalog (w : Wizard) (answers : Answers) :
    (∀ (region : String) (c : Catalog FloatingIP), c.err = none → c.keyList = [] →
      step w (.getFloatingIPs region) answers (.floatingIPs c) =
        .waiting .assignFloatingIP answers) ∧
    (∀ (choice : String) (c : Catalog FloatingIP) (n : Nat),
      choice ≠ createIPmsg (w.regions.entries.get answers.Region).Slug →
      c.err = none → c.keyList = [] →
      run w (.waiting .assignFloatingIP answers)
        (List.replicate n [Event.confirm true, .text choice, .floatingIPs c]).flatten =
        .waiting .assignFloatingIP answers) ∧
    (∀ (p p1 : Prompt) (e : Event) (a1 : Answers),
      p.phase = .floatingIP → step w p answers e = .waiting p1 a1 →
      (p1.phase = .floatingIP ∧ a1 = answers) ∨
      (p1 = .moreVolumes ∧
        ((p = .assignFloatingIP ∧ e = .confirm false ∧ a1 = answers) ∨
         (∃ region ip, p = .createFloatingIP region ∧ e = .createdFloatingIP (.ok ip) ∧
            a1 = { answers with FloatingIP := ip }) ∨
         (∃ options s, p = .chooseFloatingIP options ∧ e = .text s ∧
            a1 = { answers with FloatingIP := s })))) ∧
    (∀ (p : Prompt) (e : Event) (options : List String) (a1 : Answers),
      step w p answers e = .waiting (.chooseFloatingIP options) a1 →
      options ≠ [] ∧ ∃ region c, p = .getFloatingIPs region ∧ e = .floatingIPs c ∧
        c.err = none ∧ c.keyList = options) := by
  refine ⟨?_, ?_, ?_, ?_⟩
  · intro region c herr hkeys
    simp [step, herr, hkeys]
  · intro choice c n hchoice herr hkeys
    exact rounds_empty w answers choice c hchoice herr hkeys n
  · intro p p1 e a1 hp h
    cases p <;> simp only [Prompt.phase, reduceCtorEq] at hp <;> cases e <;>
      simp only [step, onText, onConfirm, onNumber] at h <;>
      (try split at h) <;> (try split at h) <;>
      (try simp only [State.waiting.injEq, reduceCtorEq] at h) <;>
      (try (obtain ⟨rfl, rfl⟩ := h)) <;>
      simp_all [Prompt.phase]
  · intro p e options a1 h
    cases p <;> cases e <;>
      simp only [step, onText, onConfirm, onNumber] at h <;>
      (try split at h) <;> (try split at h) <;>
      (try simp only [State.waiting.injEq, reduceCtorEq, Prompt.chooseFloatingIP.injEq] at h) <;>
      (try (obtain ⟨rfl, rfl⟩ := h)) <;>
      simp_all

/-- C9 at `demoWizard`: two rounds of yes, "use existing", empty catalog in `nyc1`. -/
theorem floatingIP_subflow_reprompts_on_empty_catalog_witness :
    "Use an existing Floating IP in the nyc1 region" ≠
      createIPmsg (demoWizard.regions.entries.get "New York 1 - nyc1").Slug ∧
    (finish [] : Catalog FloatingIP).err = none ∧
    (finish [] : Catalog FloatingIP).keyList = [] ∧
    run demoWizard
      (.waiting .assignFloatingIP ⟨"web-2", "Ubuntu - 20.04", "New York 1 - nyc1", "", "", []⟩)
      (List.replicate 2 [Event.confirm true,
        .text "Use an existing Floating IP in the nyc1 region",
        .floatingIPs (finish [])]).flatten =
      .waiting .assignFloatingIP ⟨"web-2", "Ubuntu - 20.04", "New York 1 - nyc1", "", "", []⟩ :=
  ⟨by decide, rfl, rfl,
    (floatingIP_subflow_reprompts_on_empty_catalog demoWizard
      ⟨"web-2", "Ubuntu - 20.04", "New York 1 - nyc1", "", "", []⟩).2.1
      "Use an existing Floating IP in the nyc1 region" (finish []) 2 (by decide) rfl rfl⟩

/-! ## The name of the stored entry -/

/-- C10 as stated fails at `demoNamelessScript`: the operator answers the name question with
the empty string, and the run stores an entry with the empty name under the empty key. -/
theorem empty_name_is_stored :
    ∃ (cfg : Configuration) (d : DropletConfig),
      configCreateRun demoWizard demoNamelessScript = .ended (.ret cfg) ∧
      cfg.Droplets.get? "" = some d ∧ d.Name = "" :=
  ⟨⟨"token",
      [("", ⟨"", "s-1vcpu-1gb", "ubuntu-20-04-b", "nyc1", "", []⟩),
       ("web-1", ⟨"web-1", "s-1vcpu-1gb", "debian-11", "sfo1", "", []⟩)]⟩,
    ⟨"", "s-1vcpu-1gb", "ubuntu-20-04-b", "nyc1", "", []⟩, by decide, by decide, rfl⟩

/-- C10, amended: a run that reaches `saveConfig` began with a text answer `name` to the name
question, and the configuration it hands over is the loaded one with one entry set: the
entry stored under the key `name`, whose `Name` is `name` (so it is non-empty exactly when the
answer is). -/
theorem stored_name_is_the_answer (w : Wizard) (script : List Event) (cfg : Configuration)
    (h : configCreateRun w script = .ended (.ret cfg)) :
    ∃ (name : String) (rest : List Event) (d : DropletConfig),
      script = .text name :: rest ∧ cfg.Droplets.get? name = some d ∧ d.Name = name ∧
      cfg = { w.config with Droplets := w.config.Droplets.set name d } := by
  unfold configCreateRun at h
  cases hs : start w with
  | waiting p0 a0 =>
    rw [hs] at h
    obtain ⟨⟨d0, rfl⟩, rfl⟩ := start_waiting w p0 a0 hs
    cases script with
    | nil => simp [run] at h
    | cons e rest =>
      rw [run_cons] at h
      cases e with
      | text name =>
        have hstep : step w (.name d0) default (.text name) =
            .waiting (.image d0) { (default : Answers) with Name := name } := rfl
        rw [hstep] at h
        obtain ⟨a1, hasm, hname, _⟩ := run_saved w rest _ _ cfg h
        obtain ⟨d, hget, hd, _, hcfg⟩ := assemble_ret w a1 cfg hasm
        have h1 : a1.Name = name := hname (fun d => by simp)
        rw [h1] at hget hd hcfg
        exact ⟨name, rest, d, rfl, hget, hd, hcfg⟩
      | _ => simp [step, onText, run_ended, run_invalid] at h
  | ended r =>
    rw [hs, run_ended] at h
    exact absurd (h ▸ hs) (start_not_saved w cfg)
  | invalid =>
    rw [hs, run_invalid] at h
    simp at h

/-- C10, amended, at `demoWizard`: the answer "web-2" is the name of the stored entry. -/
theorem stored_name_is_the_answer_witness :
    configCreateRun demoWizard (demoScript ++ .text "10.0.0.7 - nyc1" :: [.confirm false]) =
      .ended (.ret ⟨"token",
        [("web-2", ⟨"web-2", "s-1vcpu-1gb", "ubuntu-20-04-b", "nyc1", "10.0.0.7", []⟩),
         ("web-1", ⟨"web-1", "s-1vcpu-1gb", "debian-11", "sfo1", "", []⟩)]⟩) ∧
    ∃ (name : String) (rest : List Event) (d : DropletConfig),
      demoScript ++ .text "10.0.0.7 - nyc1" :: [.confirm false] = .text name :: rest ∧
      GoMap.get?
        [("web-2", (⟨"web-2", "s-1vcpu-1gb", "ubuntu-20-04-b", "nyc1", "10.0.0.7", []⟩ :
            DropletConfig)),
         ("web-1", ⟨"web-1", "s-1vcpu-1gb", "debian-11", "sfo1", "", []⟩)] name = some d ∧
      d.Name = name ∧
      (⟨"token",
        [("web-2", ⟨"web-2", "s-1vcpu-1gb", "ubuntu-20-04-b", "nyc1", "10.0.0.7", []⟩),
         ("web-1", ⟨"web-1", "s-1vcpu-1gb", "debian-11", "sfo1", "", []⟩)]⟩ : Configuration) =
        { demoWizard.config with Droplets := demoWizard.config.Droplets.set name d } :=
  ⟨by decide,
    stored_name_is_the_answer demoWizard
      (demoScript ++ .text "10.0.0.7 - nyc1" :: [.confirm false])
      ⟨"token",
        [("web-2", ⟨"web-2", "s-1vcpu-1gb", "ubuntu-20-04-b", "nyc1", "10.0.0.7", []⟩),
         ("web-1", ⟨"web-1", "s-1vcpu-1gb", "debian-11", "sfo1", "", []⟩)]⟩
      (by decide)⟩

end Gumdrop
